import Mathlib

/-!
Verification development for the `tiktok-diskon-coret` price-update pipeline
(`src/app.py`).  The Python code is shallowly embedded: strings are lists of
characters, spreadsheet cell values are a closed union (absent / int / float /
text), Python floats are modelled exactly by their shortest decimal
representation `m * 10^e` (rational-valued, which is faithful for every value
that the repository's data can take), and Python dicts are insertion-ordered
association lists with overwrite-on-insert.
-/

deriving instance DecidableEq for Except

namespace TiktokDiskon

/-- Python strings are modelled as lists of characters. -/
abbrev Str := List Char

/-- The whitespace characters removed by Python's `str.strip()` (ASCII part). -/
def isPySpace (c : Char) : Bool :=
  c = ' ' || c = '\t' || c = '\n' || c = '\r' || c = '\x0b' || c = '\x0c'

/-- Embedding of Python `str.strip()`: drop leading and trailing whitespace. -/
def pyTrim (s : Str) : Str :=
  ((s.dropWhile isPySpace).reverse.dropWhile isPySpace).reverse

/-- Embedding of Python `str.lower()` (ASCII). -/
def pyLower (s : Str) : Str := s.map Char.toLower

/-- Embedding of Python `str.upper()` (ASCII). -/
def pyUpper (s : Str) : Str := s.map Char.toUpper

/-- Fuel-driven core of `str.replace`: scan left to right, replacing each
non-overlapping occurrence of `pat`.  The fuel is always at least the length
of the scanned string at every call, so the fuel-exhausted branch is dead. -/
def pyReplaceAux (pat rep : Str) : Nat → Str → Str
  | _, [] => []
  | 0, s => s
  | fuel + 1, c :: cs =>
    if pat ≠ [] ∧ pat.isPrefixOf (c :: cs) then
      rep ++ pyReplaceAux pat rep fuel ((c :: cs).drop pat.length)
    else
      c :: pyReplaceAux pat rep fuel cs

/-- Embedding of Python `s.replace(pat, rep)` (left-to-right, non-overlapping). -/
def pyReplace (s pat rep : Str) : Str := pyReplaceAux pat rep s.length s

/-- Embedding of `re.split(r"\+", s)`: split at every `sep` character,
keeping empty segments (as Python's `re.split` does). -/
def splitOnChar (sep : Char) : Str → List Str
  | [] => [[]]
  | c :: cs =>
    if c = sep then [] :: splitOnChar sep cs
    else
      match splitOnChar sep cs with
      | [] => [[c]]
      | t :: ts => (c :: t) :: ts

/-- Fuel-driven decimal rendering of a natural number, most significant digit
first.  Invoked with fuel `n + 1`, which always suffices. -/
def natDigitsAux : Nat → Nat → Str → Str
  | 0, _, acc => acc
  | fuel + 1, n, acc =>
    let d := Char.ofNat (48 + n % 10)
    if n < 10 then d :: acc
    else natDigitsAux fuel (n / 10) (d :: acc)

/-- Decimal digit string of a natural number (`str(n)` for `n : Nat`). -/
def natDigits (n : Nat) : Str := natDigitsAux (n + 1) n []

/-- Embedding of Python `str(n)` for an `int`. -/
def intStr (n : Int) : Str :=
  if n < 0 then '-' :: natDigits n.natAbs else natDigits n.natAbs

/-- Numeric value of a list of decimal digit characters. -/
def natOfDigits (ds : Str) : Nat :=
  ds.foldl (fun a c => a * 10 + (c.toNat - 48)) 0

/-!
## Python floats

A Python float is modelled by its shortest decimal representation: the value
is exactly `m * 10 ^ e`.  All floats produced by spreadsheet data are decimal
literals, for which this model is exact; arithmetic on the model is exact
rational arithmetic.
-/

/-- A Python float, given by its (shortest) decimal representation
`m * 10 ^ e`. -/
structure PyFloat where
  m : Int
  e : Int
deriving DecidableEq

/-- Exact rational value of a Python float.  (Built with `mkRat` so that the
kernel can evaluate it.) -/
def PyFloat.val (f : PyFloat) : ℚ :=
  if 0 ≤ f.e then mkRat (f.m * (10 : Int) ^ f.e.toNat) 1
  else mkRat f.m ((10 : Nat) ^ (-f.e).toNat)

/-- Embedding of Python `float.is_integer()`. -/
def PyFloat.isInteger (f : PyFloat) : Bool := (PyFloat.val f).den = 1

/-- Embedding of Python `int(x)` on an exact rational value: truncation
toward zero (t-division of numerator by denominator). -/
def pyTrunc (q : ℚ) : Int := q.num.tdiv q.den

/-- Embedding of Python `round(x)` (one-argument form): round to the nearest
integer, ties to the even neighbour.  Computed on the numerator and
denominator: with `f = ⌊q⌋` and `r = q.num - f * q.den`, the fractional part
of `q` is `r / q.den`, compared against `1/2` by comparing `2 * r` with
`q.den`. -/
def pyRound (q : ℚ) : Int :=
  let f := q.num.fdiv q.den
  let r2 : Int := 2 * (q.num - f * q.den)
  if r2 < (q.den : Int) then f
  else if (q.den : Int) < r2 then f + 1
  else if f % 2 = 0 then f else f + 1

/-- Strip factors of ten from a mantissa (fuel-driven; fuel `m` suffices). -/
def normFloatAux : Nat → Nat → Int → Nat × Int
  | 0, m, e => (m, e)
  | fuel + 1, m, e =>
    if m ≠ 0 ∧ m % 10 = 0 then normFloatAux fuel (m / 10) (e + 1) else (m, e)

/-- Exponent field of Python float repr: sign then at least two digits. -/
def expDigits (k : Int) : Str :=
  let ds := natDigits k.natAbs
  let ds := if ds.length < 2 then '0' :: ds else ds
  (if k < 0 then '-' else '+') :: ds

/-- Embedding of Python `str(x)` for a (finite) float: positional notation
when the decimal exponent of the leading digit lies in `[-4, 16)`, scientific
notation otherwise; integral values rendered positionally carry a `.0`. -/
def pyFloatStr (f : PyFloat) : Str :=
  if f.m = 0 then "0.0".data
  else
    let sign : Str := if f.m < 0 then ['-'] else []
    let me := normFloatAux f.m.natAbs f.m.natAbs f.e
    let ds := natDigits me.1
    let n : Int := (ds.length : Int)
    let decExp : Int := me.2 + n - 1
    if decExp < -4 ∨ 16 ≤ decExp then
      sign ++ ds.take 1 ++ (if 2 ≤ ds.length then '.' :: ds.drop 1 else []) ++
        'e' :: expDigits decExp
    else if 0 ≤ decExp then
      let ip := decExp.toNat + 1
      if ds.length ≤ ip then
        sign ++ ds ++ List.replicate (ip - ds.length) '0' ++ '.' :: ['0']
      else
        sign ++ ds.take ip ++ '.' :: ds.drop ip
    else
      sign ++ '0' :: '.' :: List.replicate (-decExp - 1).toNat '0' ++ ds

/-!
## Raw cell values
-/

/-- A raw spreadsheet cell value as seen by the Python code: absent (`None`),
an `int`, a `float`, or text. -/
inductive PyVal where
  | none
  | int (n : Int)
  | float (f : PyFloat)
  | str (s : Str)
deriving DecidableEq

/-- Embedding of Python `str(x)` on a cell value. -/
def pyStr : PyVal → Str
  | .none => "None".data
  | .int n => intStr n
  | .float f => pyFloatStr f
  | .str s => s

/-- Embedding of `normalize_text` (src/app.py:37): `None` becomes the empty
string, anything else its trimmed string form. -/
def normalize_text (x : PyVal) : Str :=
  match x with
  | .none => []
  | v => pyTrim (pyStr v)

/-- Embedding of `normalize_addon_code` (src/app.py:43): trimmed and
upper-cased. -/
def normalize_addon_code (x : PyVal) : Str :=
  pyUpper (normalize_text x)

/-- Embedding of `parse_platform_sku` (src/app.py:59): split a composite
seller SKU on `+` into the trimmed base and the non-empty trimmed addons. -/
def parse_platform_sku (full_sku : Option Str) : Str × List Str :=
  match full_sku with
  | .none => ([], [])
  | some raw =>
    let s := pyTrim raw
    if s = [] then ([], [])
    else
      let parts := splitOnChar '+' s
      let base := pyTrim (parts.headD [])
      let addons := (parts.drop 1).filterMap
        (fun p => if p ≠ [] ∧ pyTrim p ≠ [] then some (pyTrim p) else Option.none)
      (base, addons)

/-- Embedding of `parse_number_like_id` (src/app.py:78): `None` becomes the
empty string, an `int` its digits, an integral float the digits of its value,
any other float its `str` form, and text its trimmed form. -/
def parse_number_like_id (x : PyVal) : Str :=
  match x with
  | .none => []
  | .int n => intStr n
  | .float f => if PyFloat.isInteger f then intStr (pyTrunc (PyFloat.val f)) else pyFloatStr f
  | .str s => pyTrim s

/-!
## Embedding of Python `float(s)` on cleaned strings

The grammar accepted by `float` on finite decimal literals: an optional sign,
a mantissa (`digits`, `digits.`, `digits.digits` or `.digits`, with single
underscores allowed between digits), and an optional `e`/`E` exponent.
Infinities and NaN spellings are treated as parse failures here; in the
source they parse but then fail the subsequent `int(round(...))` conversion
inside the same `try`, so `parse_price_cell` returns `None` either way.
-/

/-- Parse `(["_"] digit)*`, returning the digits (underscores dropped) and
the unconsumed remainder. -/
def parseDigitTail : Str → (Str × Str)
  | [] => ([], [])
  | c :: cs =>
    if c.isDigit then
      let p := parseDigitTail cs
      (c :: p.1, p.2)
    else if c = '_' then
      match cs with
      | d :: ds2 =>
        if d.isDigit then
          let p := parseDigitTail ds2
          (d :: p.1, p.2)
        else ([], c :: cs)
      | [] => ([], [c])
    else ([], c :: cs)

/-- Parse `digit (["_"] digit)*`; fails without a leading digit. -/
def parseDigitPart (s : Str) : Option (Str × Str) :=
  match s with
  | c :: cs =>
    if c.isDigit then
      let p := parseDigitTail cs
      some (c :: p.1, p.2)
    else Option.none
  | [] => Option.none

/-- The rational `ip.fp` with integer digits `ip` and fraction digits `fp`. -/
def ratOfParts (ip fp : Str) : ℚ :=
  mkRat ((natOfDigits ip : Int) * (10 : Int) ^ fp.length + (natOfDigits fp : Int))
    ((10 : Nat) ^ fp.length)

/-- Scale a rational by `10 ^ k` for an integer `k` (kernel-evaluable). -/
def scale10 (q : ℚ) (k : Int) : ℚ :=
  if 0 ≤ k then mkRat (q.num * (10 : Int) ^ k.toNat) q.den
  else mkRat q.num (q.den * (10 : Nat) ^ (-k).toNat)

/-- Negate a rational (kernel-evaluable). -/
def rneg (q : ℚ) : ℚ := mkRat (-q.num) q.den

/-- Parse the unsigned mantissa of a float literal. -/
def parseMantissa (s : Str) : Option (ℚ × Str) :=
  match parseDigitPart s with
  | some (ds, rest) =>
    match rest with
    | '.' :: r2 =>
      match parseDigitPart r2 with
      | some (fs, r3) => some (ratOfParts ds fs, r3)
      | Option.none => some (ratOfParts ds [], r2)
    | _ => some (ratOfParts ds [], rest)
  | Option.none =>
    match s with
    | '.' :: r2 =>
      match parseDigitPart r2 with
      | some (fs, r3) => some (ratOfParts [] fs, r3)
      | Option.none => Option.none
    | _ => Option.none

/-- Parse a full float literal (after whitespace stripping). -/
def pyParseFloatCore (s : Str) : Option ℚ :=
  let sg : Bool × Str :=
    match s with
    | '+' :: r => (false, r)
    | '-' :: r => (true, r)
    | _ => (false, s)
  match parseMantissa sg.2 with
  | Option.none => Option.none
  | some (q, s2) =>
    let q := if sg.1 then rneg q else q
    match s2 with
    | [] => some q
    | e :: rest =>
      if e = 'e' ∨ e = 'E' then
        let es : Bool × Str :=
          match rest with
          | '+' :: r => (false, r)
          | '-' :: r => (true, r)
          | _ => (false, rest)
        match parseDigitPart es.2 with
        | some (ds, []) =>
          some (scale10 q (if es.1 then -(natOfDigits ds : Int) else (natOfDigits ds : Int)))
        | _ => Option.none
      else Option.none

/-- Embedding of Python `float(s)` (which strips surrounding whitespace). -/
def pyParseFloat (s : Str) : Option ℚ := pyParseFloatCore (pyTrim s)

/-- Embedding of `parse_price_cell` (src/app.py:94): absent stays absent;
numbers truncate (integral) or round half-to-even (otherwise); text is
trimmed, the exact substrings `Rp`/`rp` and all spaces are removed, the
thousands/decimal separator rule is applied, and the cleaned string is parsed
as a float, any failure yielding absent. -/
def parse_price_cell (val : PyVal) : Option Int :=
  match val with
  | .none => Option.none
  | .int n => some n
  | .float f =>
    if PyFloat.isInteger f then some (pyTrunc (PyFloat.val f))
    else some (pyRound (PyFloat.val f))
  | .str s0 =>
    let s := pyTrim s0
    if s = [] then Option.none
    else
      let s := pyReplace (pyReplace (pyReplace s "Rp".data []) "rp".data []) " ".data []
      let s :=
        if s.contains '.' && s.contains ',' then
          pyReplace (pyReplace s ['.'] []) [','] ['.']
        else if s.contains '.' && !s.contains ',' then
          pyReplace s ['.'] []
        else if s.contains ',' && !s.contains '.' then
          pyReplace s [','] []
        else s
      (pyParseFloat s).map (fun q => if q.den = 1 then q.num else pyRound q)

/-- Embedding of `apply_multiplier_if_needed` (src/app.py:144): prices below
one million are taken to be in thousands and multiplied by 1000. -/
def apply_multiplier_if_needed (x : Option Int) : Int :=
  match x with
  | Option.none => 0
  | some v => if v < 1000000 then v * 1000 else v

/-!
## Python dicts

A Python dict is an insertion-ordered association list; inserting an existing
key overwrites its value in place.
-/

/-- Insertion-ordered association list modelling a Python dict. -/
abbrev AList (α β : Type) : Type := List (α × β)

/-- Dict lookup (`d.get(k)` / `d[k]`). -/
def alGet? {α β : Type} [DecidableEq α] (d : AList α β) (k : α) : Option β :=
  (d.find? (fun p => p.1 = k)).map (fun p => p.2)

/-- Dict insertion (`d[k] = v`): overwrite in place, else append. -/
def alInsert {α β : Type} [DecidableEq α] (d : AList α β) (k : α) (v : β) : AList α β :=
  match d with
  | [] => [(k, v)]
  | (k2, v2) :: rest => if k2 = k then (k, v) :: rest else (k2, v2) :: alInsert rest k v

/-!
## Pricing core
-/

/-- A pricelist entry: the inner dict `{"M3": ..., "M4": ...}` built by
`load_pricelist_map`, with each tier present or absent. -/
structure PLEntry where
  m3 : Option Int
  m4 : Option Int
deriving DecidableEq

/-- Python truthiness of the inner dict (`if not pl`): at least one key. -/
def PLEntry.isTruthy (e : PLEntry) : Bool := e.m3.isSome || e.m4.isSome

/-- The apostrophe character (used in the addon-missing reason string). -/
def apos : Char := Char.ofNat 39

/-- The reason string `f"Addon '{code}' tidak ada di file Addon Mapping"`. -/
def addonNotFoundMsg (code : Str) : Str :=
  "Addon ".data ++ apos :: code ++ apos :: " tidak ada di file Addon Mapping".data

/-- The addon loop of `compute_new_price_for_row` (src/app.py:388-395):
accumulate addon prices, skip empty canonical codes, abort on the first code
missing from the addon map. -/
def addonLoop (addon_map : AList Str Int) : List Str → Int → Except Str Int
  | [], acc => .ok acc
  | a :: rest, acc =>
    let code := normalize_addon_code (.str a)
    if code = [] then addonLoop addon_map rest acc
    else
      match alGet? addon_map code with
      | Option.none => .error code
      | some p => addonLoop addon_map rest (acc + p)

/-- Embedding of `compute_new_price_for_row` (src/app.py:358): returns
`(new price or None, reason string)`. -/
def compute_new_price_for_row (sku_full : Str) (platform : Str)
    (pl_map : AList Str PLEntry) (addon_map : AList Str Int) (discount_rp : Int) :
    Option Int × Str :=
  let ba := parse_platform_sku (some sku_full)
  if ba.1 = [] then (Option.none, "SKU kosong".data)
  else
    match alGet? pl_map ba.1 with
    | Option.none => (Option.none, "Base SKU tidak ada di Pricelist".data)
    | some pl =>
      if !pl.isTruthy then (Option.none, "Base SKU tidak ada di Pricelist".data)
      else
        let price_key : Str := if platform = "tiktok".data then "M3".data else "M4".data
        let base_price := if platform = "tiktok".data then pl.m3 else pl.m4
        match base_price with
        | Option.none =>
          (Option.none, "Harga ".data ++ price_key ++ " kosong di Pricelist".data)
        | some bp =>
          match addonLoop addon_map ba.2 0 with
          | .error code => (Option.none, addonNotFoundMsg code)
          | .ok addon_total =>
            let final := bp + addon_total - discount_rp
            let final := if final < 0 then 0 else final
            (some final, price_key ++ " + addon - diskon".data)

/-!
## Sheets

A worksheet is a list of rows of raw cell values; `cell` is 1-indexed as in
openpyxl, with absent positions reading as `None`.  `safe_set_cell_value` is
modelled as a plain write: the sheets modelled here contain no merged ranges,
so the merged-cell redirection branch of the source is never taken.
-/

/-- A worksheet: rows of raw cell values. -/
structure Sheet where
  rows : List (List PyVal)
deriving DecidableEq

/-- `ws.max_row`. -/
def Sheet.maxRow (ws : Sheet) : Nat := ws.rows.length

/-- `ws.max_column`: the largest populated column index. -/
def Sheet.maxCol (ws : Sheet) : Nat := ws.rows.foldl (fun a r => max a r.length) 0

/-- `ws.cell(row=r, column=c).value`, 1-indexed; out-of-range reads `None`. -/
def Sheet.cell (ws : Sheet) (r c : Nat) : PyVal :=
  if r = 0 ∨ c = 0 then PyVal.none
  else ((ws.rows.getD (r - 1) []).getD (c - 1) PyVal.none)

/-- Write position `i` of a row, padding with `None` if it is short. -/
def padSet (l : List PyVal) (i : Nat) (v : PyVal) : List PyVal :=
  (l ++ List.replicate (i + 1 - l.length) PyVal.none).set i v

/-- `safe_set_cell_value` on an unmerged sheet: write the cell (1-indexed). -/
def Sheet.setCell (ws : Sheet) (r c : Nat) (v : PyVal) : Sheet :=
  if r = 0 ∨ c = 0 then ws
  else if r - 1 < ws.rows.length then
    ⟨ws.rows.set (r - 1) (padSet (ws.rows.getD (r - 1) []) (c - 1) v)⟩
  else ws

/-!
## Header resolution
-/

/-- The stripped string values of row `r` (`row_vals` in the source):
`""` for `None` cells, `str(v).strip()` otherwise. -/
def rowStrs (ws : Sheet) (r : Nat) : List Str :=
  (List.range' 1 ws.maxCol).map (fun c =>
    match ws.cell r c with
    | PyVal.none => []
    | v => pyTrim (pyStr v))

/-- The dict comprehension of `find_header_row_and_cols_mass` (src/app.py:198):
map lowered header text to 1-based column, later duplicates overwriting
earlier ones (Python dict-comprehension semantics). -/
def lowerMapLastAux (m : AList Str Nat) (idx : Nat) : List Str → AList Str Nat
  | [] => m
  | v :: rest =>
    if pyTrim v = [] then lowerMapLastAux m (idx + 1) rest
    else lowerMapLastAux (alInsert m (pyLower (pyTrim v)) idx) (idx + 1) rest

/-- Last-occurrence-wins lowered header map for one row. -/
def lowerMapLast (vals : List Str) : AList Str Nat := lowerMapLastAux [] 1 vals

/-- The explicit loop of the pricelist/addon header scans
(src/app.py:220-227, 303-309): first occurrence of a lowered header wins. -/
def lowerMapFirstAux (m : AList Str Nat) (idx : Nat) : List Str → AList Str Nat
  | [] => m
  | v :: rest =>
    let lv := pyLower (pyTrim v)
    if lv = [] then lowerMapFirstAux m (idx + 1) rest
    else if (alGet? m lv).isSome then lowerMapFirstAux m (idx + 1) rest
    else lowerMapFirstAux (alInsert m lv idx) (idx + 1) rest

/-- First-occurrence-wins lowered header map for one row. -/
def lowerMapFirst (vals : List Str) : AList Str Nat := lowerMapFirstAux [] 1 vals

/-- `MASS_HEADER_SKU` (src/app.py:15). -/
def MASS_HEADER_SKU : Str := "SKU Penjual".data

/-- `MASS_HEADER_PRICE` (src/app.py:16). -/
def MASS_HEADER_PRICE : Str := "Harga Ritel (Mata Uang Lokal)".data

/-- One row test of the mass-update header scan (src/app.py:188-200). -/
def massCheckRow (ws : Sheet) (r : Nat) : Option (Nat × Nat × Nat) :=
  let lm := lowerMapLast (rowStrs ws r)
  match alGet? lm (pyLower (pyTrim MASS_HEADER_SKU)),
        alGet? lm (pyLower (pyTrim MASS_HEADER_PRICE)) with
  | some ca, some cb => some (r, ca, cb)
  | _, _ => Option.none

/-- Error message of `find_header_row_and_cols_mass`. -/
def massHeaderErr : Str :=
  "Header Mass Update tidak ketemu. Pastikan ada ".data ++
    apos :: MASS_HEADER_SKU ++ apos :: " dan ".data ++
    apos :: MASS_HEADER_PRICE ++ apos :: ".".data

/-- Embedding of `find_header_row_and_cols_mass` (src/app.py:178): scan rows
1..29 for a row whose (last-wins) lowered header map contains both required
headers. -/
def find_header_row_and_cols_mass (ws : Sheet) : Except Str (Nat × Nat × Nat) :=
  match (List.range' 1 29).findSome? (massCheckRow ws) with
  | some t => .ok t
  | Option.none => .error massHeaderErr

/-- `PL_HEADER_SKU_CANDIDATES` (src/app.py:19). -/
def PL_HEADER_SKU_CANDIDATES : List Str :=
  ["KODEBARANG".data, "KODE BARANG".data, "SKU".data, "SKU NO".data,
   "SKU_NO".data, "KODEBARANG ".data]

/-- One row test of the pricelist header scan (src/app.py:214-236). -/
def plCheckRow (ws : Sheet) (r : Nat) : Option (Nat × Nat × Nat × Nat) :=
  let lm := lowerMapFirst (rowStrs ws r)
  let sku_col := (PL_HEADER_SKU_CANDIDATES.map (fun c => pyLower (pyTrim c))).findSome?
    (fun cand => alGet? lm cand)
  match sku_col, alGet? lm "m3".data, alGet? lm "m4".data with
  | some sc, some c3, some c4 => some (r, sc, c3, c4)
  | _, _, _ => Option.none

/-- Error message of `find_header_row_and_cols_pricelist`. -/
def plHeaderErr : Str :=
  "Header Pricelist tidak ketemu. Pastikan ada kolom KODEBARANG (atau setara) dan kolom M3 & M4.".data

/-- Embedding of `find_header_row_and_cols_pricelist` (src/app.py:205): scan
rows 1..59 with a first-occurrence-wins header map. -/
def find_header_row_and_cols_pricelist (ws : Sheet) : Except Str (Nat × Nat × Nat × Nat) :=
  match (List.range' 1 59).findSome? (plCheckRow ws) with
  | some t => .ok t
  | Option.none => .error plHeaderErr

/-- `ADDON_CODE_CANDIDATES` (src/app.py:24). -/
def ADDON_CODE_CANDIDATES : List Str :=
  ["addon_code".data, "ADDON_CODE".data, "Addon Code".data, "Kode".data,
   "KODE".data, "KODE ADDON".data, "KODE_ADDON".data]

/-- `ADDON_PRICE_CANDIDATES` (src/app.py:25). -/
def ADDON_PRICE_CANDIDATES : List Str :=
  ["harga".data, "HARGA".data, "Price".data, "PRICE".data, "Harga".data]

/-- One row test of the addon header scan (the loop body inlined in
`load_addon_map`, src/app.py:297-327). -/
def addonCheckRow (ws : Sheet) (r : Nat) : Option (Nat × Nat × Nat) :=
  let lm := lowerMapFirst (rowStrs ws r)
  let code_col := (ADDON_CODE_CANDIDATES.map (fun c => pyLower (pyTrim c))).findSome?
    (fun cand => alGet? lm cand)
  let price_col := (ADDON_PRICE_CANDIDATES.map (fun c => pyLower (pyTrim c))).findSome?
    (fun cand => alGet? lm cand)
  match code_col, price_col with
  | some cc, some pc => some (r, cc, pc)
  | _, _ => Option.none

/-- Error message of the addon header scan. -/
def addonHeaderErr : Str :=
  "Header Addon Mapping tidak ketemu. Pastikan ada kolom addon_code & harga (atau setara).".data

/-- The header scan inlined in `load_addon_map` (src/app.py:297-330): rows
1..29, first-occurrence-wins map, first candidate of each synonym list. -/
def find_header_row_and_cols_addon (ws : Sheet) : Except Str (Nat × Nat × Nat) :=
  match (List.range' 1 29).findSome? (addonCheckRow ws) with
  | some t => .ok t
  | Option.none => .error addonHeaderErr

/-!
## Pricelist loader
-/

/-- One data row of `load_pricelist_map` (src/app.py:253-273): skip blank
SKUs and rows with no parseable tier, otherwise assign the entry afresh with
exactly the successfully parsed tiers. -/
def plStep (ws : Sheet) (sku_col m3_col m4_col : Nat)
    (m : AList Str PLEntry) (r : Nat) : AList Str PLEntry :=
  let sku := normalize_text (ws.cell r sku_col)
  if sku = [] then m
  else
    let m3_raw := parse_price_cell (ws.cell r m3_col)
    let m4_raw := parse_price_cell (ws.cell r m4_col)
    if m3_raw = Option.none ∧ m4_raw = Option.none then m
    else
      alInsert m sku
        ⟨m3_raw.map (fun v => apply_multiplier_if_needed (some v)),
         m4_raw.map (fun v => apply_multiplier_if_needed (some v))⟩

/-- The data-row loop of `load_pricelist_map` over rows
`header_row+1 .. max_row`. -/
def load_pricelist_rows (ws : Sheet) (header_row sku_col m3_col m4_col : Nat) :
    AList Str PLEntry :=
  (List.range' (header_row + 1) (ws.maxRow - header_row)).foldl
    (plStep ws sku_col m3_col m4_col) []

/-- Embedding of `load_pricelist_map` (src/app.py:241): header scan then row
loop. -/
def load_pricelist_map (ws : Sheet) : Except Str (AList Str PLEntry) :=
  match find_header_row_and_cols_pricelist ws with
  | .error e => .error e
  | .ok t => .ok (load_pricelist_rows ws t.1 t.2.1 t.2.2.1 t.2.2.2)

/-!
## Mass-update batch loop
-/

/-- Embedding of the `RowChange` dataclass (src/app.py:348). -/
structure RowChange where
  file : Str
  excel_row : Nat
  sku_full : Str
  old_price : Int
  new_price : Int
  reason : Str
deriving DecidableEq

/-- The per-file configuration of the batch loop (src/app.py:469-508):
filename, platform, the two lookup tables, the discount, and the resolved
SKU/price column indices. -/
structure MassCfg where
  file : Str
  platform : Str
  pl_map : AList Str PLEntry
  addon_map : AList Str Int
  discount : Int
  sku_col : Nat
  price_col : Nat

/-- The loop state of the batch loop: the worksheet being mutated in place,
the accumulated change records, and `file_changed_count`. -/
structure MassState where
  ws : Sheet
  changed : List RowChange
  count : Nat
deriving DecidableEq

/-- One iteration of the batch loop (src/app.py:492-528): skip blank SKUs,
skip failed resolutions, skip unchanged prices, otherwise write the new price
into the price cell and record a `RowChange`. -/
def massRowStep (cfg : MassCfg) (st : MassState) (r : Nat) : MassState :=
  let sku_full := parse_number_like_id (st.ws.cell r cfg.sku_col)
  if sku_full = [] then st
  else
    let old_price_raw := parse_price_cell (st.ws.cell r cfg.price_col)
    let old_price := old_price_raw.getD 0
    let res := compute_new_price_for_row sku_full cfg.platform cfg.pl_map cfg.addon_map
      cfg.discount
    match res.1 with
    | Option.none => st
    | some np =>
      if np = old_price then st
      else
        { ws := st.ws.setCell r cfg.price_col (.int np),
          changed := st.changed ++ [⟨cfg.file, r, sku_full, old_price, np, res.2⟩],
          count := st.count + 1 }

/-- The whole per-file batch loop, iterating rows `header_row+1 .. max_row`
starting from the uploaded sheet and empty change list. -/
def processMassFile (cfg : MassCfg) (ws : Sheet) (header_row : Nat) : MassState :=
  (List.range' (header_row + 1) (ws.maxRow - header_row)).foldl (massRowStep cfg)
    ⟨ws, [], 0⟩

/-!
## Dict lemmas
-/

theorem alGet?_alInsert_self {α β : Type} [DecidableEq α] (d : AList α β) (k : α) (v : β) :
    alGet? (alInsert d k v) k = some v := by
  induction d with
  | nil => simp [alInsert, alGet?, List.find?]
  | cons p rest ih =>
    by_cases h : p.1 = k
    · simp [alInsert, h, alGet?, List.find?]
    · simp only [alInsert, h, if_false]
      simp only [alGet?, List.find?] at ih ⊢
      simp [h, ih]

theorem alGet?_alInsert_ne {α β : Type} [DecidableEq α] (d : AList α β) (k k' : α) (v : β)
    (h : k' ≠ k) : alGet? (alInsert d k v) k' = alGet? d k' := by
  induction d with
  | nil => simp [alInsert, alGet?, List.find?, Ne.symm h]
  | cons p rest ih =>
    by_cases hp : p.1 = k
    · simp only [alInsert, hp, if_true]
      simp only [alGet?, List.find?]
      simp [Ne.symm h, hp]
    · simp only [alInsert, hp, if_false]
      simp only [alGet?, List.find?] at ih ⊢
      by_cases hp' : p.1 = k'
      · simp [hp']
      · simp [hp', ih]

/-!
## Claim C2: pricelist duplicate handling
-/

/-- Pricelist sheet with a duplicated base SKU: the first `A` row carries both
tiers, the second parses only M3 (its M4 cell is the unparseable text `x`). -/
def plDupSheet : Sheet :=
  ⟨[[.str "KODEBARANG".data, .str "M3".data, .str "M4".data],
    [.str "A".data, .int 5, .int 7],
    [.str "A".data, .int 9, .str "x".data]]⟩

/-- Claim C2 is false on the code: the earlier duplicate row for `A` parsed
M4 = 7 (which would load as 7000), yet after the later duplicate row — which
parses only M3 — the loaded entry for `A` has no M4 value at all, instead of
keeping 7000.  The later row reassigns the whole entry. -/
theorem claim_C2_cex :
    parse_price_cell (plDupSheet.cell 2 3) = some 7 ∧
    load_pricelist_map plDupSheet = .ok [("A".data, ⟨some 9000, Option.none⟩)] ∧
    alGet? [("A".data, (⟨some 9000, Option.none⟩ : PLEntry))] "A".data ≠
      some ⟨some 9000, some 7000⟩ := by
  refine ⟨by decide, by decide, by decide⟩

/-- Claim C2 (corrected): a duplicate pricelist row with at least one
parseable tier replaces the whole stored entry with exactly the tiers it
parses — tiers it fails to parse become absent, discarding any earlier
value — while a row with a blank key or no parseable tier leaves the map
unchanged; keys other than the row's are never affected. -/
theorem claim_C2 (ws : Sheet) (sku_col m3_col m4_col : Nat)
    (m : AList Str PLEntry) (r : Nat) :
    (normalize_text (ws.cell r sku_col) = [] →
      plStep ws sku_col m3_col m4_col m r = m) ∧
    (parse_price_cell (ws.cell r m3_col) = Option.none →
      parse_price_cell (ws.cell r m4_col) = Option.none →
      plStep ws sku_col m3_col m4_col m r = m) ∧
    (normalize_text (ws.cell r sku_col) ≠ [] →
      (parse_price_cell (ws.cell r m3_col) ≠ Option.none ∨
        parse_price_cell (ws.cell r m4_col) ≠ Option.none) →
      alGet? (plStep ws sku_col m3_col m4_col m r) (normalize_text (ws.cell r sku_col)) =
        some ⟨(parse_price_cell (ws.cell r m3_col)).map
                (fun v => apply_multiplier_if_needed (some v)),
              (parse_price_cell (ws.cell r m4_col)).map
                (fun v => apply_multiplier_if_needed (some v))⟩ ∧
      ∀ k, k ≠ normalize_text (ws.cell r sku_col) →
        alGet? (plStep ws sku_col m3_col m4_col m r) k = alGet? m k) := by
  refine ⟨fun h => by simp [plStep, h], fun h3 h4 => ?_, fun hsku htier => ?_⟩
  · simp [plStep, h3, h4]
  · have hcond : ¬ (parse_price_cell (ws.cell r m3_col) = Option.none ∧
        parse_price_cell (ws.cell r m4_col) = Option.none) := by
      rcases htier with h | h
      · exact fun hc => h hc.1
      · exact fun hc => h hc.2
    constructor
    · simp only [plStep, hsku, if_neg hsku, if_neg hcond]
      exact alGet?_alInsert_self ..
    · intro k hk
      simp only [plStep, hsku, if_neg hsku, if_neg hcond]
      exact alGet?_alInsert_ne _ _ _ _ hk

/-- Witness for C2: the duplicate row 3 of `plDupSheet`, starting from the map
already holding both tiers for `A`, reassigns the entry to M3-only. -/
theorem claim_C2_wit :
    alGet? (plStep plDupSheet 1 2 3 [("A".data, ⟨some 5000, some 7000⟩)] 3) "A".data =
      some ⟨some 9000, Option.none⟩ := by
  have h := (claim_C2 plDupSheet 1 2 3 [("A".data, ⟨some 5000, some 7000⟩)] 3).2.2
    (by decide) (Or.inl (by decide))
  have := h.1
  simpa using this

/-!
## Claim C3: text price cleaning
-/

theorem pyReplaceAux_del (p : Char) :
    ∀ (fuel : Nat) (s : Str), s.length ≤ fuel →
      pyReplaceAux [p] [] fuel s = s.filter (fun c => c != p) := by
  intro fuel
  induction fuel with
  | zero =>
    intro s hs
    have : s = [] := List.length_eq_zero.mp (Nat.le_zero.mp hs)
    subst this
    rfl
  | succ n ih =>
    intro s hs
    cases s with
    | nil => rfl
    | cons c cs =>
      have hcs : cs.length ≤ n := by simpa using hs
      by_cases hpc : p = c
      · subst hpc
        simp [pyReplaceAux, List.isPrefixOf, ih cs hcs]
      · simp [pyReplaceAux, List.isPrefixOf, hpc, Ne.symm hpc, ih cs hcs]

theorem pyReplace_del (s : Str) (p : Char) :
    pyReplace s [p] [] = s.filter (fun c => c != p) :=
  pyReplaceAux_del p s.length s (Nat.le_refl _)

theorem pyReplaceAux_subst (p q : Char) :
    ∀ (fuel : Nat) (s : Str), s.length ≤ fuel →
      pyReplaceAux [p] [q] fuel s = s.map (fun c => if c = p then q else c) := by
  intro fuel
  induction fuel with
  | zero =>
    intro s hs
    have : s = [] := List.length_eq_zero.mp (Nat.le_zero.mp hs)
    subst this
    rfl
  | succ n ih =>
    intro s hs
    cases s with
    | nil => rfl
    | cons c cs =>
      have hcs : cs.length ≤ n := by simpa using hs
      by_cases hpc : p = c
      · subst hpc
        simp [pyReplaceAux, List.isPrefixOf, ih cs hcs]
      · simp [pyReplaceAux, List.isPrefixOf, hpc, Ne.symm hpc, ih cs hcs]

theorem pyReplace_subst (s : Str) (p q : Char) :
    pyReplace s [p] [q] = s.map (fun c => if c = p then q else c) :=
  pyReplaceAux_subst p q s.length s (Nat.le_refl _)

/-- The separator rule of the spec, stated with filters and maps: with both
separators present the dots are removed and the comma becomes the decimal
point; with a single kind of separator present, it is removed. -/
def sepRuleSpec (t : Str) : Str :=
  if t.contains '.' && t.contains ',' then
    (t.filter (fun c => c != '.')).map (fun c => if c = ',' then '.' else c)
  else if t.contains '.' && !t.contains ',' then t.filter (fun c => c != '.')
  else if t.contains ',' && !t.contains '.' then t.filter (fun c => c != ',')
  else t

/-- The parse-time rounding applied to a successfully parsed price value. -/
def roundToIntSpec (q : ℚ) : Int := if q.den = 1 then q.num else pyRound q

/-- The claim's reading of the text branch of `normalizePrice`: strip ALL
whitespace, strip a case-insensitive `Rp` prefix, apply the separator rule,
parse, with failure mapping to absent. -/
def parse_price_cell_claimed (s : Str) : Option Int :=
  let t0 := pyTrim s
  if t0 = [] then Option.none
  else
    let t1 := t0.filter (fun c => !(isPySpace c))
    let t2 := if (pyLower t1).take 2 = "rp".data then t1.drop 2 else t1
    (pyParseFloat (sepRuleSpec t2)).map roundToIntSpec

/-- What the code actually does on text: trim, remove the exact substrings
`Rp` and `rp` and all space characters, apply the separator rule, parse,
with failure mapping to absent. -/
def parse_price_cell_text (s : Str) : Option Int :=
  let t0 := pyTrim s
  if t0 = [] then Option.none
  else
    let t1 := (pyReplace (pyReplace t0 "Rp".data []) "rp".data []).filter (fun c => c != ' ')
    (pyParseFloat (sepRuleSpec t1)).map roundToIntSpec

/-- Claim C3 is false on the code: the currency prefix is not stripped
case-insensitively.  On the text `"RP5.000"` the code leaves `RP` in place
and fails to parse, yielding absent, while the claim's reading strips the
prefix and yields 5000. -/
theorem claim_C3_cex :
    parse_price_cell (.str "RP5.000".data) = Option.none ∧
    parse_price_cell_claimed "RP5.000".data = some 5000 := by
  refine ⟨by decide, by decide⟩

/-- Claim C3 (corrected): on text the code trims, then removes every
occurrence of the exact substrings `Rp` and `rp` (other casings such as `RP`
are not removed) and every space character, then applies exactly the claimed
separator rule — both `.` and `,` present: drop dots, comma becomes the
decimal point; only one present: drop it — and parses the cleaned string,
any failure yielding absent rather than an error. -/
theorem claim_C3 (s : Str) : parse_price_cell (.str s) = parse_price_cell_text s := by
  simp only [parse_price_cell, parse_price_cell_text, sepRuleSpec, roundToIntSpec,
    pyReplace_del, pyReplace_subst]
  rfl

/-!
## Claim C4: rounding of numeric prices
-/

/-- The claim's rounding rule: half-up, i.e. `⌊q + 1/2⌋`, computed on the
numerator and denominator so the kernel can evaluate it. -/
def roundHalfUp (q : ℚ) : Int := (2 * q.num + q.den).fdiv (2 * q.den)

/-- A rational times its denominator equals its numerator. -/
theorem rat_mul_den (q : ℚ) : q * ((q.den : Int) : ℚ) = (q.num : ℚ) := by
  have hden0 : ((q.den : ℚ)) ≠ 0 := (Nat.cast_ne_zero (R := ℚ)).mpr q.den_nz
  push_cast
  nth_rewrite 1 [← Rat.num_div_den q]
  rw [div_mul_cancel₀ _ hden0]

/-- `q - n` as a quotient of integers, for rational `q` and integer `n`. -/
theorem rat_sub_int (q : ℚ) (n : Int) :
    q - (n : ℚ) = ((q.num - n * (q.den : Int) : Int) : ℚ) / ((q.den : Int) : ℚ) := by
  have hd0 : (((q.den : Int)) : ℚ) ≠ 0 := by
    have : ((q.den : ℚ)) ≠ 0 := (Nat.cast_ne_zero (R := ℚ)).mpr q.den_nz
    push_cast
    exact this
  rw [eq_div_iff hd0, sub_mul, rat_mul_den]
  push_cast
  ring

/-- Correctness of the embedded Python `round`: the result is within `1/2` of
the argument, and an exact tie lands on an even integer. -/
theorem pyRound_spec (q : ℚ) :
    |q - (pyRound q : ℚ)| ≤ 1 / 2 ∧
    (|q - (pyRound q : ℚ)| = 1 / 2 → pyRound q % 2 = 0) := by
  have hdpos : (0 : Int) < (q.den : Int) := by exact_mod_cast q.den_pos
  have hfd : q.num.fdiv (q.den : Int) = q.num / (q.den : Int) :=
    Int.fdiv_eq_ediv _ (le_of_lt hdpos)
  set d : Int := (q.den : Int) with hd
  set f : Int := q.num / d with hf
  set r : Int := q.num % d with hr
  have hr0 : 0 ≤ r := Int.emod_nonneg _ (ne_of_gt hdpos)
  have hrd : r < d := Int.emod_lt_of_pos _ hdpos
  have hsum : d * f + r = q.num := Int.ediv_add_emod _ _
  have hnum_f : q.num - f * d = r := by rw [mul_comm] at hsum; linarith
  have hrw : pyRound q = if 2 * r < d then f else if d < 2 * r then f + 1
      else if f % 2 = 0 then f else f + 1 := by
    simp only [pyRound, hfd, ← hd, ← hf, hnum_f]
  have hdQ : (0 : ℚ) < (d : ℚ) := by exact_mod_cast hdpos
  have habs : ∀ n : Int, |q - (n : ℚ)| = |((q.num - n * d : Int) : ℚ)| / (d : ℚ) := by
    intro n
    rw [rat_sub_int q n, ← hd, abs_div, abs_of_pos hdQ]
  have hrQ : (0 : ℚ) ≤ ((r : Int) : ℚ) := by exact_mod_cast hr0
  have hnp : ((r - d : Int) : ℚ) ≤ 0 := by
    have h1 : (r - d : Int) ≤ 0 := by omega
    exact_mod_cast h1
  rcases lt_trichotomy (2 * r) d with hlt | heq | hgt
  · have hn : pyRound q = f := by rw [hrw, if_pos hlt]
    have hval : |q - (pyRound q : ℚ)| = ((r : Int) : ℚ) / (d : ℚ) := by
      rw [hn, habs f, hnum_f, abs_of_nonneg hrQ]
    have hc : (2 : ℚ) * (r : Int) < ((d : Int) : ℚ) := by exact_mod_cast hlt
    constructor
    · rw [hval, div_le_div_iff hdQ (by norm_num)]
      linarith
    · intro habs2
      rw [hval, div_eq_div_iff (ne_of_gt hdQ) (by norm_num)] at habs2
      linarith
  · have hn : pyRound q = if f % 2 = 0 then f else f + 1 := by
      rw [hrw, if_neg (by omega), if_neg (by omega)]
    have hcq : (2 : ℚ) * (r : Int) = ((d : Int) : ℚ) := by exact_mod_cast heq
    have hval : |q - (pyRound q : ℚ)| = 1 / 2 := by
      rcases Int.emod_two_eq f with hpar | hpar
      · rw [hn, if_pos hpar, habs f, hnum_f, abs_of_nonneg hrQ]
        rw [div_eq_div_iff (ne_of_gt hdQ) (by norm_num)]
        linarith
      · rw [hn, if_neg (by omega), habs (f + 1)]
        have hv : q.num - (f + 1) * d = r - d := by rw [add_mul, one_mul]; linarith
        rw [hv, abs_of_nonpos hnp, div_eq_div_iff (ne_of_gt hdQ) (by norm_num)]
        push_cast
        push_cast at hcq
        linarith
    refine ⟨le_of_eq hval, fun _ => ?_⟩
    rcases Int.emod_two_eq f with hpar | hpar
    · rw [hn, if_pos hpar]; exact hpar
    · rw [hn, if_neg (by omega)]; omega
  · have hn : pyRound q = f + 1 := by rw [hrw, if_neg (by omega), if_pos hgt]
    have hv : q.num - (f + 1) * d = r - d := by rw [add_mul, one_mul]; linarith
    have hval : |q - (pyRound q : ℚ)| = -((r - d : Int) : ℚ) / (d : ℚ) := by
      rw [hn, habs (f + 1), hv, abs_of_nonpos hnp]
    have hc : ((d : Int) : ℚ) < (2 : ℚ) * (r : Int) := by exact_mod_cast hgt
    constructor
    · rw [hval, div_le_div_iff hdQ (by norm_num)]
      push_cast
      push_cast at hc
      linarith
    · intro habs2
      rw [hval, div_eq_div_iff (ne_of_gt hdQ) (by norm_num)] at habs2
      push_cast at habs2 hc
      linarith

/-- Claim C4 is false on the code: `round` in the source is Python's
banker's rounding, so the numeric cell 2.5 parses to 2, while the claim's
half-up rule gives 3. -/
theorem claim_C4_cex :
    parse_price_cell (.float ⟨25, -1⟩) = some 2 ∧
    roundHalfUp (PyFloat.val ⟨25, -1⟩) = 3 ∧ (2 : Int) ≠ 3 := by
  refine ⟨by decide, by decide, by decide⟩

/-- Claim C4 (corrected): integral floats truncate to their exact integer
value; every non-integral number rounds to a nearest integer with ties going
to the even neighbour (half-to-even, not half-up). -/
theorem claim_C4 (f : PyFloat) :
    (PyFloat.isInteger f = true →
      parse_price_cell (.float f) = some (pyTrunc (PyFloat.val f)) ∧
      ((pyTrunc (PyFloat.val f) : ℚ) = PyFloat.val f)) ∧
    (PyFloat.isInteger f = false →
      ∃ n : Int, parse_price_cell (.float f) = some n ∧
        |PyFloat.val f - (n : ℚ)| ≤ 1 / 2 ∧
        (|PyFloat.val f - (n : ℚ)| = 1 / 2 → n % 2 = 0)) := by
  constructor
  · intro h
    refine ⟨by simp [parse_price_cell, h], ?_⟩
    have hden : (PyFloat.val f).den = 1 := by simpa [PyFloat.isInteger] using h
    have := (Rat.den_eq_one_iff (PyFloat.val f)).mp hden
    rw [pyTrunc, hden]
    simpa [Int.tdiv_one] using this
  · intro h
    refine ⟨pyRound (PyFloat.val f), by simp [parse_price_cell, h], ?_, ?_⟩
    · exact (pyRound_spec (PyFloat.val f)).1
    · exact (pyRound_spec (PyFloat.val f)).2

/-- Witness for C4 at the float 2.5: the parsed price is within one half of
the value and the tie condition applies. -/
theorem claim_C4_wit :
    ∃ n : Int, parse_price_cell (.float ⟨25, -1⟩) = some n ∧
      |PyFloat.val ⟨25, -1⟩ - (n : ℚ)| ≤ 1 / 2 ∧
      (|PyFloat.val ⟨25, -1⟩ - (n : ℚ)| = 1 / 2 → n % 2 = 0) :=
  (claim_C4 ⟨25, -1⟩).2 (by decide)

/-!
## Claim C5: identifier normalization
-/

theorem natDigitsAux_digits :
    ∀ (fuel n : Nat) (acc : Str), (∀ c ∈ acc, c.isDigit = true) →
      ∀ c ∈ natDigitsAux fuel n acc, c.isDigit = true := by
  intro fuel
  induction fuel with
  | zero => intro n acc hacc; simpa [natDigitsAux] using hacc
  | succ k ih =>
    intro n acc hacc c hc
    have hdig : (Char.ofNat (48 + n % 10)).isDigit = true := by
      have h10 : n % 10 < 10 := Nat.mod_lt _ (by omega)
      have : ∀ m, m < 10 → (Char.ofNat (48 + m)).isDigit = true := by decide
      exact this _ h10
    simp only [natDigitsAux] at hc
    by_cases hn : n < 10
    · simp only [hn, if_true] at hc
      rcases List.mem_cons.mp hc with h | h
      · subst h; exact hdig
      · exact hacc c h
    · simp only [hn, if_false] at hc
      refine ih _ _ ?_ c hc
      intro c' hc'
      rcases List.mem_cons.mp hc' with h | h
      · subst h; exact hdig
      · exact hacc c' h

theorem natDigits_digits (n : Nat) : ∀ c ∈ natDigits n, c.isDigit = true :=
  natDigitsAux_digits (n + 1) n [] (by intro c hc; cases hc)

theorem intStr_chars (n : Int) : ∀ c ∈ intStr n, c = '-' ∨ c.isDigit = true := by
  intro c hc
  simp only [intStr] at hc
  by_cases h : n < 0
  · simp only [h, if_true] at hc
    rcases List.mem_cons.mp hc with h' | h'
    · exact Or.inl h'
    · exact Or.inr (natDigits_digits _ c h')
  · simp only [h, if_false] at hc
    exact Or.inr (natDigits_digits _ c hc)

theorem intStr_no_exp (n : Int) : 'e' ∉ intStr n ∧ '.' ∉ intStr n := by
  constructor
  · intro h
    rcases intStr_chars n 'e' h with h' | h'
    · cases h'
    · cases h'
  · intro h
    rcases intStr_chars n '.' h with h' | h'
    · cases h'
    · cases h'

theorem intStr_digits_of_nonneg (n : Int) (h : 0 ≤ n) :
    ∀ c ∈ intStr n, c.isDigit = true := by
  intro c hc
  simp only [intStr, not_lt.mpr h, if_neg (not_lt.mpr h)] at hc
  exact natDigits_digits _ c hc

/-- Claim C5 is false on the code: the integer `-5` renders as `"-5"`, which
is not a plain decimal-digit string, and the non-integral float `1e-05`
renders as `"1e-05"`, which contains exponent notation. -/
theorem claim_C5_cex :
    parse_number_like_id (.int (-5)) = "-5".data ∧
    ¬ (∀ c ∈ parse_number_like_id (.int (-5)), c.isDigit = true) ∧
    parse_number_like_id (.float ⟨1, -5⟩) = "1e-05".data ∧
    'e' ∈ parse_number_like_id (.float ⟨1, -5⟩) := by
  refine ⟨by decide, by decide, by decide, by decide⟩

/-- Claim C5 (corrected): absent maps to the empty string; integers and
integral floats map to their decimal digits with no `.0`, no decimal point,
and no exponent character — with a leading `-` sign when negative (digits
only when nonnegative); text maps to its trimmed form; non-integral floats
are the one remaining case and render via Python float repr, which does use
exponent notation for small magnitudes (see the counterexample).  The
function never fails. -/
theorem claim_C5 :
    (parse_number_like_id PyVal.none = []) ∧
    (∀ n : Int, parse_number_like_id (.int n) = intStr n ∧
      'e' ∉ intStr n ∧ '.' ∉ intStr n ∧
      (∀ c ∈ intStr n, c = '-' ∨ c.isDigit = true) ∧
      (0 ≤ n → ∀ c ∈ intStr n, c.isDigit = true)) ∧
    (∀ f : PyFloat, PyFloat.isInteger f = true →
      parse_number_like_id (.float f) = intStr (pyTrunc (PyFloat.val f)) ∧
      'e' ∉ parse_number_like_id (.float f) ∧ '.' ∉ parse_number_like_id (.float f)) ∧
    (∀ s : Str, parse_number_like_id (.str s) = pyTrim s) := by
  refine ⟨rfl, fun n => ⟨rfl, (intStr_no_exp n).1, (intStr_no_exp n).2,
    intStr_chars n, intStr_digits_of_nonneg n⟩, fun f hf => ?_, fun s => rfl⟩
  have heq : parse_number_like_id (.float f) = intStr (pyTrunc (PyFloat.val f)) := by
    simp [parse_number_like_id, hf]
  refine ⟨heq, ?_, ?_⟩
  · rw [heq]; exact (intStr_no_exp _).1
  · rw [heq]; exact (intStr_no_exp _).2

/-- Witness for C5: the integral float 5.0 renders as the digits of 5, with
no exponent character. -/
theorem claim_C5_wit :
    parse_number_like_id (.float ⟨5, 0⟩) = intStr (pyTrunc (PyFloat.val ⟨5, 0⟩)) ∧
    'e' ∉ parse_number_like_id (.float ⟨5, 0⟩) ∧
    '.' ∉ parse_number_like_id (.float ⟨5, 0⟩) :=
  claim_C5.2.2.1 ⟨5, 0⟩ (by decide)

/-!
## Claims C6 and C7: the pricing core
-/

/-- The Boolean test for an addon token that the resolver's loop will fail
on: non-empty canonical code that is absent from the addon table. -/
def addonMissing (addon_map : AList Str Int) (a : Str) : Bool :=
  !(normalize_addon_code (.str a)).isEmpty &&
    (alGet? addon_map (normalize_addon_code (.str a))).isNone

/-- The total addon surcharge when every (non-empty) token is priced. -/
def addonSumSpec (addon_map : AList Str Int) (addons : List Str) : Int :=
  (addons.filterMap (fun a =>
    let c := normalize_addon_code (.str a)
    if c = [] then Option.none else alGet? addon_map c)).sum

theorem addonLoop_err (addon_map : AList Str Int) :
    ∀ (addons : List Str) (acc : Int) (a0 : Str),
      addons.find? (addonMissing addon_map) = some a0 →
      addonLoop addon_map addons acc = .error (normalize_addon_code (.str a0)) := by
  intro addons
  induction addons with
  | nil => intro acc a0 h; cases h
  | cons a rest ih =>
    intro acc a0 h
    by_cases hc : normalize_addon_code (.str a) = []
    · have hpred : addonMissing addon_map a = false := by
        simp [addonMissing, hc]
      rw [List.find?_cons_of_neg _ (by simp [hpred])] at h
      simpa [addonLoop, hc] using ih acc a0 h
    · cases hget : alGet? addon_map (normalize_addon_code (.str a)) with
      | none =>
        have hpred : addonMissing addon_map a = true := by
          simp [addonMissing, hget, List.isEmpty_iff, hc]
        rw [List.find?_cons_of_pos _ hpred] at h
        cases h
        simp [addonLoop, hc, hget]
      | some p =>
        have hpred : addonMissing addon_map a = false := by
          simp [addonMissing, hget]
        rw [List.find?_cons_of_neg _ (by simp [hpred])] at h
        simpa [addonLoop, hc, hget] using ih (acc + p) a0 h

theorem addonLoop_ok (addon_map : AList Str Int) :
    ∀ (addons : List Str),
      (∀ a ∈ addons, normalize_addon_code (.str a) = [] ∨
        (alGet? addon_map (normalize_addon_code (.str a))).isSome = true) →
      ∀ acc : Int, addonLoop addon_map addons acc = .ok (acc + addonSumSpec addon_map addons) := by
  intro addons
  induction addons with
  | nil => intro _ acc; simp [addonLoop, addonSumSpec]
  | cons a rest ih =>
    intro hall acc
    have hrest := fun a ha => hall a (List.mem_cons_of_mem _ ha)
    by_cases hc : normalize_addon_code (.str a) = []
    · rw [show addonLoop addon_map (a :: rest) acc =
          addonLoop addon_map rest acc from by simp [addonLoop, hc]]
      rw [ih hrest acc]
      simp [addonSumSpec, hc]
    · have hmem := hall a (List.mem_cons_self a rest)
      rcases hmem with h | h
      · exact absurd h hc
      · cases hget : alGet? addon_map (normalize_addon_code (.str a)) with
        | none => rw [hget] at h; cases h
        | some p =>
          rw [show addonLoop addon_map (a :: rest) acc =
              addonLoop addon_map rest (acc + p) from by simp [addonLoop, hc, hget]]
          rw [ih hrest (acc + p)]
          have hsum : addonSumSpec addon_map (a :: rest) =
              p + addonSumSpec addon_map rest := by
            simp [addonSumSpec, hc, hget]
          rw [hsum]
          congr 1
          ring

/-- Claim C6 (confirmed): when the base SKU resolves to a truthy pricelist
entry with the requested tier present, but some addon token's canonical code
is missing from the addon table, the resolver fails with the
addon-not-found reason naming the first such code — no partial price. -/
theorem claim_C6 (pl_map : AList Str PLEntry) (addon_map : AList Str Int)
    (sku platform : Str) (discount : Int) (base : Str) (addons : List Str)
    (e : PLEntry) (bp : Int) (a0 : Str)
    (hparse : parse_platform_sku (some sku) = (base, addons))
    (hbase : base ≠ [])
    (hfound : alGet? pl_map base = some e)
    (htruthy : e.isTruthy = true)
    (htier : (if platform = "tiktok".data then e.m3 else e.m4) = some bp)
    (hmiss : addons.find? (addonMissing addon_map) = some a0) :
    compute_new_price_for_row sku platform pl_map addon_map discount =
      (Option.none, addonNotFoundMsg (normalize_addon_code (.str a0))) := by
  simp only [compute_new_price_for_row, hparse]
  rw [if_neg hbase, hfound]
  simp only [htruthy, Bool.not_true, Bool.false_eq_true, if_false, htier]
  rw [addonLoop_err addon_map addons 0 a0 hmiss]

/-- Witness for C6, the spec's own scenario: `"X+A+B"` with `X` priced, `A`
priced, `B` absent fails with the reason naming `B` — never a partial price
from `A` alone. -/
theorem claim_C6_wit :
    compute_new_price_for_row "X+A+B".data "tiktok".data
      [("X".data, ⟨some 50000, Option.none⟩)] [("A".data, 2000)] 0 =
      (Option.none, addonNotFoundMsg "B".data) :=
  claim_C6 [("X".data, ⟨some 50000, Option.none⟩)] [("A".data, 2000)]
    "X+A+B".data "tiktok".data 0 "X".data ["A".data, "B".data]
    ⟨some 50000, Option.none⟩ 50000 "B".data
    (by decide) (by decide) (by decide) (by decide) (by decide) (by decide)

/-- Claim C7 (confirmed): when the base SKU, tier price, and every addon
code resolve, the result is the base price plus the addon surcharges minus
the flat discount, clamped to zero from below — a negative pre-clamp total
is Resolved 0, never an error. -/
theorem claim_C7 (pl_map : AList Str PLEntry) (addon_map : AList Str Int)
    (sku platform : Str) (discount : Int) (base : Str) (addons : List Str)
    (e : PLEntry) (bp : Int)
    (hparse : parse_platform_sku (some sku) = (base, addons))
    (hbase : base ≠ [])
    (hfound : alGet? pl_map base = some e)
    (htruthy : e.isTruthy = true)
    (htier : (if platform = "tiktok".data then e.m3 else e.m4) = some bp)
    (haddons : ∀ a ∈ addons, normalize_addon_code (.str a) = [] ∨
      (alGet? addon_map (normalize_addon_code (.str a))).isSome = true) :
    compute_new_price_for_row sku platform pl_map addon_map discount =
      (some (if bp + addonSumSpec addon_map addons - discount < 0 then 0
             else bp + addonSumSpec addon_map addons - discount),
       (if platform = "tiktok".data then "M3".data else "M4".data) ++
         " + addon - diskon".data) := by
  simp only [compute_new_price_for_row, hparse]
  rw [if_neg hbase, hfound]
  simp only [htruthy, Bool.not_true, Bool.false_eq_true, if_false, htier]
  rw [addonLoop_ok addon_map addons haddons 0]
  simp

/-- Witness for C7, the spec's clamp scenario: base price 5000, discount
10000, no addons resolves to 0. -/
theorem claim_C7_wit :
    compute_new_price_for_row "B".data "tiktok".data
      [("B".data, ⟨some 5000, Option.none⟩)] [] 10000 =
      (some 0, "M3 + addon - diskon".data) := by
  have h := claim_C7 [("B".data, ⟨some 5000, Option.none⟩)] [] "B".data
    "tiktok".data 10000 "B".data [] ⟨some 5000, Option.none⟩ 5000
    (by decide) (by decide) (by decide) (by decide) (by decide)
    (by intro a ha; cases ha)
  simpa using h

/-!
## Claim C8: SKU decomposition round trip
-/

/-- `join(addons, "+")`. -/
def joinPlus : List Str → Str
  | [] => []
  | [a] => a
  | a :: b :: rest => a ++ '+' :: joinPlus (b :: rest)

theorem head_not_of_dropWhile (p : Char → Bool) (c : Char) (cs : Str)
    (h : (c :: cs).dropWhile p = c :: cs) : p c = false := by
  by_cases hp : p c
  · exfalso
    simp only [List.dropWhile_cons, hp, if_true] at h
    have hle : (cs.dropWhile p).length ≤ cs.length :=
      (List.dropWhile_sublist (l := cs) p).length_le
    rw [h] at hle
    simp at hle
  · simpa using hp

theorem cons_dropWhile_of_false (p : Char → Bool) (c : Char) (l : Str)
    (h : p c = false) : (c :: l).dropWhile p = c :: l := by
  simp [List.dropWhile_cons, h]

theorem dropWhile_append_of_ne_nil (p : Char → Bool) (x y : Str)
    (hx : x ≠ []) (h : x.dropWhile p = x) : (x ++ y).dropWhile p = x ++ y := by
  cases x with
  | nil => exact absurd rfl hx
  | cons c cs =>
    have hpc : p c = false := head_not_of_dropWhile p c cs h
    simp [List.cons_append, List.dropWhile_cons, hpc]

theorem pyTrim_eq_self_parts (l : Str) (h : pyTrim l = l) :
    l.dropWhile isPySpace = l ∧ l.reverse.dropWhile isPySpace = l.reverse := by
  set a := l.dropWhile isPySpace with hadef
  set b := a.reverse.dropWhile isPySpace with hbdef
  have hpy : b.reverse = l := h
  have la : a.length ≤ l.length := (List.dropWhile_sublist (l := l) isPySpace).length_le
  have lb : b.length ≤ a.length := by
    have := (List.dropWhile_sublist (l := a.reverse) isPySpace).length_le
    simpa using this
  have hbl : b.length = l.length := by
    have : b.reverse.length = l.length := by rw [hpy]
    simpa using this
  have hal : a.length = l.length := by omega
  have ha : a = l := (List.dropWhile_sublist (l := l) isPySpace).eq_of_length hal
  refine ⟨ha, ?_⟩
  have hb : b = l.reverse := by
    have : b.reverse.reverse = l.reverse := by rw [hpy]
    simpa using this
  rw [← ha, ← hbdef, hb]
  rw [ha]

theorem pyTrim_of_parts (l : Str) (h1 : l.dropWhile isPySpace = l)
    (h2 : l.reverse.dropWhile isPySpace = l.reverse) : pyTrim l = l := by
  rw [pyTrim, h1, h2, List.reverse_reverse]

theorem splitOnChar_of_not_mem (c : Char) (s : Str) (h : c ∉ s) :
    splitOnChar c s = [s] := by
  induction s with
  | nil => rfl
  | cons a as ih =>
    have hac : ¬ a = c := fun hh => h (hh ▸ List.mem_cons_self a as)
    have has : c ∉ as := fun hh => h (List.mem_cons_of_mem _ hh)
    simp [splitOnChar, hac, ih has]

theorem splitOnChar_append_cons (c : Char) (xs ys : Str) (h : c ∉ xs) :
    splitOnChar c (xs ++ c :: ys) = xs :: splitOnChar c ys := by
  induction xs with
  | nil => simp [splitOnChar]
  | cons a as ih =>
    have hac : ¬ a = c := fun hh => h (hh ▸ List.mem_cons_self a as)
    have has : c ∉ as := fun hh => h (List.mem_cons_of_mem _ hh)
    have hstep : splitOnChar c ((a :: as) ++ c :: ys) =
        match splitOnChar c (as ++ c :: ys) with
        | [] => [[a]]
        | t :: ts => (a :: t) :: ts := by
      simp [splitOnChar, hac]
    rw [hstep, ih has]

theorem splitOnChar_joinPlus :
    ∀ (addons : List Str), addons ≠ [] → (∀ a ∈ addons, '+' ∉ a) →
      splitOnChar '+' (joinPlus addons) = addons := by
  intro addons
  induction addons with
  | nil => intro h; exact absurd rfl h
  | cons a rest ih =>
    intro _ hall
    cases rest with
    | nil => exact splitOnChar_of_not_mem '+' a (hall a (List.mem_cons_self a []))
    | cons b r2 =>
      rw [joinPlus, splitOnChar_append_cons '+' a _ (hall a (List.mem_cons_self _ _))]
      rw [ih (by simp) (fun x hx => hall x (List.mem_cons_of_mem _ hx))]

theorem joinPlus_rev_inv :
    ∀ (addons : List Str), addons ≠ [] →
      (∀ a ∈ addons, a ≠ [] ∧ a.reverse.dropWhile isPySpace = a.reverse) →
      (joinPlus addons).reverse.dropWhile isPySpace = (joinPlus addons).reverse ∧
        joinPlus addons ≠ [] := by
  intro addons
  induction addons with
  | nil => intro h; exact absurd rfl h
  | cons a rest ih =>
    intro _ hall
    cases rest with
    | nil =>
      have := hall a (List.mem_cons_self a [])
      exact ⟨this.2, this.1⟩
    | cons b r2 =>
      have hihyp := ih (by simp) (fun x hx => hall x (List.mem_cons_of_mem _ hx))
      have ha := hall a (List.mem_cons_self _ _)
      rw [joinPlus]
      constructor
      · rw [List.reverse_append, List.reverse_cons, List.append_assoc]
        have hjne : (joinPlus (b :: r2)).reverse ≠ [] := by
          simpa using hihyp.2
        exact dropWhile_append_of_ne_nil isPySpace _ _ hjne hihyp.1
      · simp [ha.1]

theorem filterMap_trimmed :
    ∀ (l : List Str), (∀ a ∈ l, a ≠ [] ∧ pyTrim a = a) →
      l.filterMap (fun p => if p ≠ [] ∧ pyTrim p ≠ [] then some (pyTrim p)
        else Option.none) = l := by
  intro l
  induction l with
  | nil => intro _; rfl
  | cons a rest ih =>
    intro hall
    have ha := hall a (List.mem_cons_self _ _)
    have hcond : a ≠ [] ∧ pyTrim a ≠ [] := ⟨ha.1, by rw [ha.2]; exact ha.1⟩
    rw [List.filterMap_cons]
    have hval : (if a ≠ [] ∧ pyTrim a ≠ [] then some (pyTrim a) else Option.none) =
        some a := by rw [if_pos hcond, ha.2]
    rw [hval, ih (fun x hx => hall x (List.mem_cons_of_mem _ hx))]

/-- Claim C8 is false as stated, on two counts: a base that carries
whitespace is trimmed by decomposition, and an empty addon string is
dropped. -/
theorem claim_C8_cex :
    parse_platform_sku (some ("a ".data ++ '+' :: joinPlus ["b".data])) =
      ("a".data, ["b".data]) ∧
    (("a".data : Str), ["b".data]) ≠ (("a ".data : Str), ["b".data]) ∧
    parse_platform_sku (some ("a".data ++ '+' :: joinPlus [[]])) = ("a".data, []) ∧
    (("a".data : Str), ([] : List Str)) ≠ ("a".data, [([] : Str)]) := by
  refine ⟨by decide, by decide, by decide, by decide⟩

/-- Claim C8 (corrected): the decomposition round trip
`decompose(base + "+" + join(addons, "+")) = (base, addons)` holds for every
base with no `+` and no leading or trailing whitespace, and every list of
non-empty addon strings with no `+` and no leading or trailing whitespace. -/
theorem claim_C8 (base : Str) (addons : List Str)
    (hb : '+' ∉ base) (hbt : pyTrim base = base)
    (ha : ∀ a ∈ addons, a ≠ [] ∧ pyTrim a = a ∧ '+' ∉ a) :
    parse_platform_sku (some (base ++ '+' :: joinPlus addons)) = (base, addons) := by
  set jp := joinPlus addons with hjp
  set s := base ++ '+' :: jp with hs
  have hs_ne : s ≠ [] := by
    rw [hs]
    intro h
    rcases List.append_eq_nil.mp h with ⟨_, h2⟩
    cases h2
  have hplus : isPySpace '+' = false := by decide
  have hlead : s.dropWhile isPySpace = s := by
    cases hbase : base with
    | nil => rw [hs, hbase, List.nil_append]; exact cons_dropWhile_of_false _ _ _ hplus
    | cons c cs =>
      rw [hs]
      refine dropWhile_append_of_ne_nil _ _ _ (by simp [hbase]) ?_
      exact (pyTrim_eq_self_parts base hbt).1
  have htrail : s.reverse.dropWhile isPySpace = s.reverse := by
    rw [hs, List.reverse_append, List.reverse_cons, List.append_assoc]
    cases haddons : addons with
    | nil =>
      rw [hjp, haddons, joinPlus, List.reverse_nil, List.nil_append, List.cons_append]
      refine cons_dropWhile_of_false _ _ _ hplus
    | cons a rest =>
      have hinv := joinPlus_rev_inv addons (by simp [haddons])
        (fun x hx => ⟨(ha x hx).1, ((pyTrim_eq_self_parts x (ha x hx).2.1).2)⟩)
      refine dropWhile_append_of_ne_nil _ _ _ (by simpa using hinv.2) hinv.1
  have htrim : pyTrim s = s := pyTrim_of_parts s hlead htrail
  simp only [parse_platform_sku, htrim]
  rw [if_neg hs_ne]
  rw [hs, splitOnChar_append_cons '+' base jp hb]
  cases haddons : addons with
  | nil =>
    rw [hjp, haddons, joinPlus]
    simp only [splitOnChar, List.headD, List.drop, List.filterMap]
    rw [hbt]
    simp
  | cons a rest =>
    rw [hjp, haddons, ← haddons,
      splitOnChar_joinPlus addons (by simp [haddons]) (fun x hx => (ha x hx).2.2)]
    simp only [List.headD, List.drop]
    rw [hbt, filterMap_trimmed addons (fun x hx => ⟨(ha x hx).1, (ha x hx).2.1⟩)]

/-- Witness for C8: a realistic composite SKU splits back into its parts. -/
theorem claim_C8_wit :
    parse_platform_sku (some ("ND-LAP".data ++ '+' :: joinPlus ["PC".data, "BA".data])) =
      ("ND-LAP".data, ["PC".data, "BA".data]) :=
  claim_C8 "ND-LAP".data ["PC".data, "BA".data] (by decide) (by decide) (by decide)

/-!
## Claim C9: header resolution
-/

/-- Index (1-based, from `idx`) of the first cell whose lowered trimmed text
equals `k`, skipping blank cells. -/
def firstIdxFrom : Nat → List Str → Str → Option Nat
  | _, [], _ => Option.none
  | idx, v :: rest, k =>
    let lv := pyLower (pyTrim v)
    if lv ≠ [] ∧ lv = k then some idx else firstIdxFrom (idx + 1) rest k

/-- Index of the last cell whose lowered trimmed text equals `k`. -/
def lastIdxFrom : Nat → List Str → Str → Option Nat
  | _, [], _ => Option.none
  | idx, v :: rest, k =>
    let lv := pyLower (pyTrim v)
    match lastIdxFrom (idx + 1) rest k with
    | some j => some j
    | Option.none => if lv ≠ [] ∧ lv = k then some idx else Option.none

theorem lowerMapFirstAux_get (k : Str) :
    ∀ (vals : List Str) (m : AList Str Nat) (idx : Nat),
      alGet? (lowerMapFirstAux m idx vals) k =
        match alGet? m k with
        | some v => some v
        | Option.none => firstIdxFrom idx vals k := by
  intro vals
  induction vals with
  | nil =>
    intro m idx
    simp only [lowerMapFirstAux, firstIdxFrom]
    cases alGet? m k <;> rfl
  | cons v rest ih =>
    intro m idx
    by_cases hlv : pyLower (pyTrim v) = []
    · rw [show lowerMapFirstAux m idx (v :: rest) = lowerMapFirstAux m (idx + 1) rest from
        by simp [lowerMapFirstAux, hlv]]
      rw [ih m (idx + 1)]
      rw [show firstIdxFrom idx (v :: rest) k = firstIdxFrom (idx + 1) rest k from
        by simp [firstIdxFrom, hlv]]
    · cases hget : alGet? m (pyLower (pyTrim v)) with
      | some x =>
        rw [show lowerMapFirstAux m idx (v :: rest) = lowerMapFirstAux m (idx + 1) rest from
          by simp [lowerMapFirstAux, hlv, hget]]
        rw [ih m (idx + 1)]
        by_cases hk : k = pyLower (pyTrim v)
        · rw [hk, hget]
        · rw [show firstIdxFrom idx (v :: rest) k = firstIdxFrom (idx + 1) rest k from by
            simp only [firstIdxFrom]
            rw [if_neg]
            intro hcond
            exact hk hcond.2.symm]
      | none =>
        rw [show lowerMapFirstAux m idx (v :: rest) =
            lowerMapFirstAux (alInsert m (pyLower (pyTrim v)) idx) (idx + 1) rest from
          by simp [lowerMapFirstAux, hlv, hget]]
        rw [ih _ (idx + 1)]
        by_cases hk : k = pyLower (pyTrim v)
        · rw [hk, alGet?_alInsert_self, hget]
          rw [show firstIdxFrom idx (v :: rest) (pyLower (pyTrim v)) = some idx from by
            simp [firstIdxFrom, hlv]]
        · rw [alGet?_alInsert_ne _ _ _ _ hk]
          rw [show firstIdxFrom idx (v :: rest) k = firstIdxFrom (idx + 1) rest k from by
            simp only [firstIdxFrom]
            rw [if_neg]
            intro hcond
            exact hk hcond.2.symm]

theorem lowerMapLastAux_get (k : Str) :
    ∀ (vals : List Str) (m : AList Str Nat) (idx : Nat),
      alGet? (lowerMapLastAux m idx vals) k =
        match lastIdxFrom idx vals k with
        | some j => some j
        | Option.none => alGet? m k := by
  intro vals
  induction vals with
  | nil =>
    intro m idx
    simp only [lowerMapLastAux, lastIdxFrom]
  | cons v rest ih =>
    intro m idx
    by_cases hlv : pyTrim v = []
    · rw [show lowerMapLastAux m idx (v :: rest) = lowerMapLastAux m (idx + 1) rest from
        by simp [lowerMapLastAux, hlv]]
      rw [ih m (idx + 1)]
      have hlv2 : pyLower (pyTrim v) = [] := by rw [hlv]; rfl
      rw [show lastIdxFrom idx (v :: rest) k = lastIdxFrom (idx + 1) rest k from by
        simp only [lastIdxFrom]
        cases lastIdxFrom (idx + 1) rest k with
        | some j => rfl
        | none => simp [hlv2]]
    · rw [show lowerMapLastAux m idx (v :: rest) =
          lowerMapLastAux (alInsert m (pyLower (pyTrim v)) idx) (idx + 1) rest from
        by simp [lowerMapLastAux, hlv]]
      rw [ih _ (idx + 1)]
      have hlv2 : pyLower (pyTrim v) ≠ [] := by
        intro hh
        apply hlv
        have hlen := congrArg List.length hh
        simp only [pyLower, List.length_map, List.length_nil] at hlen
        exact List.length_eq_zero.mp hlen
      cases hrest : lastIdxFrom (idx + 1) rest k with
      | some j =>
        rw [show lastIdxFrom idx (v :: rest) k = some j from by
          simp only [lastIdxFrom, hrest]]
      | none =>
        by_cases hk : k = pyLower (pyTrim v)
        · rw [hk, alGet?_alInsert_self]
          rw [show lastIdxFrom idx (v :: rest) (pyLower (pyTrim v)) = some idx from by
            simp only [lastIdxFrom]
            rw [show lastIdxFrom (idx + 1) rest (pyLower (pyTrim v)) = Option.none from
              hk ▸ hrest]
            simp [hlv2]]
        · rw [alGet?_alInsert_ne _ _ _ _ hk]
          rw [show lastIdxFrom idx (v :: rest) k = Option.none from by
            simp only [lastIdxFrom, hrest]
            rw [if_neg]
            intro hcond
            exact hk hcond.2.symm]

theorem findSome?_range'_none {α : Type} (f : Nat → Option α) :
    ∀ (n s : Nat),
      ((List.range' s n).findSome? f = Option.none ↔
        ∀ r, s ≤ r → r < s + n → f r = Option.none) := by
  intro n
  induction n with
  | zero =>
    intro s
    constructor
    · intro _ r h1 h2
      omega
    · intro _
      rfl
  | succ n ih =>
    intro s
    rw [show List.range' s (n + 1) = s :: List.range' (s + 1) n from rfl,
      List.findSome?_cons]
    cases hf : f s with
    | some a =>
      constructor
      · intro h; cases h
      · intro hall
        have := hall s (Nat.le_refl s) (by omega)
        rw [hf] at this
        cases this
    | none =>
      rw [ih (s + 1)]
      constructor
      · intro hall r h1 h2
        rcases Nat.eq_or_lt_of_le h1 with h | h
        · rw [← h]; exact hf
        · exact hall r h (by omega)
      · intro hall r h1 h2
        exact hall r (by omega) (by omega)

theorem findSome?_range'_some {α : Type} (f : Nat → Option α) :
    ∀ (n s : Nat) (a : α), (List.range' s n).findSome? f = some a →
      ∃ r, s ≤ r ∧ r < s + n ∧ f r = some a ∧
        ∀ r', s ≤ r' → r' < r → f r' = Option.none := by
  intro n
  induction n with
  | zero =>
    intro s a h
    cases h
  | succ n ih =>
    intro s a h
    rw [show List.range' s (n + 1) = s :: List.range' (s + 1) n from rfl,
      List.findSome?_cons] at h
    cases hf : f s with
    | some b =>
      rw [hf] at h
      cases h
      exact ⟨s, Nat.le_refl s, by omega, hf, fun r' h1 h2 => by omega⟩
    | none =>
      rw [hf] at h
      rcases ih (s + 1) a h with ⟨r, hr1, hr2, hr3, hr4⟩
      refine ⟨r, by omega, by omega, hr3, ?_⟩
      intro r' h1 h2
      rcases Nat.eq_or_lt_of_le h1 with heq | hlt
      · rw [← heq]; exact hf
      · exact hr4 r' hlt h2

theorem massCheckRow_fst (ws : Sheet) (r : Nat) (t : Nat × Nat × Nat)
    (h : massCheckRow ws r = some t) : t.1 = r := by
  simp only [massCheckRow] at h
  split at h
  · cases h; rfl
  · cases h

theorem plCheckRow_fst (ws : Sheet) (r : Nat) (t : Nat × Nat × Nat × Nat)
    (h : plCheckRow ws r = some t) : t.1 = r := by
  simp only [plCheckRow] at h
  split at h
  · cases h; rfl
  · cases h

theorem addonCheckRow_fst (ws : Sheet) (r : Nat) (t : Nat × Nat × Nat)
    (h : addonCheckRow ws r = some t) : t.1 = r := by
  simp only [addonCheckRow] at h
  split at h
  · cases h; rfl
  · cases h

/-- The claim's reading of the mass-update resolver: a first-occurrence-wins
header map, otherwise identical to the source's scan. -/
def massCheckRowSpec (ws : Sheet) (r : Nat) : Option (Nat × Nat × Nat) :=
  let lm := lowerMapFirst (rowStrs ws r)
  match alGet? lm (pyLower (pyTrim MASS_HEADER_SKU)),
        alGet? lm (pyLower (pyTrim MASS_HEADER_PRICE)) with
  | some ca, some cb => some (r, ca, cb)
  | _, _ => Option.none

/-- The claim's first-occurrence-wins variant of the whole mass scan. -/
def find_header_row_and_cols_mass_spec (ws : Sheet) : Except Str (Nat × Nat × Nat) :=
  match (List.range' 1 29).findSome? (massCheckRowSpec ws) with
  | some t => .ok t
  | Option.none => .error massHeaderErr

/-- A mass-update sheet whose header row repeats the SKU header in columns 1
and 2, with the price header in column 3. -/
def dupHeaderSheet : Sheet :=
  ⟨[[.str "SKU Penjual".data, .str "SKU Penjual".data,
     .str "Harga Ritel (Mata Uang Lokal)".data]]⟩

/-- Claim C9 is false on the code for the mass-update resolver: with the SKU
header duplicated in columns 1 and 2, the source's dict comprehension keeps
the LAST occurrence, resolving the SKU column to 2, while the claim's
first-occurrence-wins map resolves it to 1. -/
theorem claim_C9_cex :
    find_header_row_and_cols_mass dupHeaderSheet = .ok (1, 2, 3) ∧
    find_header_row_and_cols_mass_spec dupHeaderSheet = .ok (1, 1, 3) := by
  refine ⟨by decide, by decide⟩

/-- Claim C9 (corrected): the pricelist and addon resolvers build
first-occurrence-wins case-insensitive header maps, while the mass-update
resolver's dict comprehension is last-occurrence-wins; every resolver
returns the first row of its bounded scan range on which all required
synonyms are present, and fails with its fixed message (naming the required
columns) exactly when no row in range qualifies. -/
theorem claim_C9 :
    (∀ (vals : List Str) (k : Str),
      alGet? (lowerMapFirst vals) k = firstIdxFrom 1 vals k) ∧
    (∀ (vals : List Str) (k : Str),
      alGet? (lowerMapLast vals) k = lastIdxFrom 1 vals k) ∧
    (∀ (ws : Sheet) (t : Nat × Nat × Nat),
      find_header_row_and_cols_mass ws = .ok t →
      (1 ≤ t.1 ∧ t.1 < 30) ∧ massCheckRow ws t.1 = some t ∧
        ∀ r', 1 ≤ r' → r' < t.1 → massCheckRow ws r' = Option.none) ∧
    (∀ (ws : Sheet) (t : Nat × Nat × Nat × Nat),
      find_header_row_and_cols_pricelist ws = .ok t →
      (1 ≤ t.1 ∧ t.1 < 60) ∧ plCheckRow ws t.1 = some t ∧
        ∀ r', 1 ≤ r' → r' < t.1 → plCheckRow ws r' = Option.none) ∧
    (∀ (ws : Sheet) (t : Nat × Nat × Nat),
      find_header_row_and_cols_addon ws = .ok t →
      (1 ≤ t.1 ∧ t.1 < 30) ∧ addonCheckRow ws t.1 = some t ∧
        ∀ r', 1 ≤ r' → r' < t.1 → addonCheckRow ws r' = Option.none) ∧
    (∀ ws : Sheet,
      find_header_row_and_cols_mass ws = .error massHeaderErr ↔
        ∀ r, 1 ≤ r → r < 30 → massCheckRow ws r = Option.none) := by
  refine ⟨?_, ?_, ?_, ?_, ?_, ?_⟩
  · intro vals k
    rw [lowerMapFirst, lowerMapFirstAux_get k vals [] 1]
    rfl
  · intro vals k
    rw [lowerMapLast, lowerMapLastAux_get k vals [] 1]
    cases lastIdxFrom 1 vals k <;> rfl
  · intro ws t h
    rw [find_header_row_and_cols_mass] at h
    cases hscan : (List.range' 1 29).findSome? (massCheckRow ws) with
    | none => rw [hscan] at h; cases h
    | some t' =>
      rw [hscan] at h
      cases h
      rcases findSome?_range'_some (massCheckRow ws) 29 1 t hscan with ⟨r, h1, h2, h3, h4⟩
      have hfst := massCheckRow_fst ws r t h3
      subst hfst
      exact ⟨⟨h1, by omega⟩, h3, fun r' hr1 hr2 => h4 r' hr1 hr2⟩
  · intro ws t h
    rw [find_header_row_and_cols_pricelist] at h
    cases hscan : (List.range' 1 59).findSome? (plCheckRow ws) with
    | none => rw [hscan] at h; cases h
    | some t' =>
      rw [hscan] at h
      cases h
      rcases findSome?_range'_some (plCheckRow ws) 59 1 t hscan with ⟨r, h1, h2, h3, h4⟩
      have hfst := plCheckRow_fst ws r t h3
      subst hfst
      exact ⟨⟨h1, by omega⟩, h3, fun r' hr1 hr2 => h4 r' hr1 hr2⟩
  · intro ws t h
    rw [find_header_row_and_cols_addon] at h
    cases hscan : (List.range' 1 29).findSome? (addonCheckRow ws) with
    | none => rw [hscan] at h; cases h
    | some t' =>
      rw [hscan] at h
      cases h
      rcases findSome?_range'_some (addonCheckRow ws) 29 1 t hscan with ⟨r, h1, h2, h3, h4⟩
      have hfst := addonCheckRow_fst ws r t h3
      subst hfst
      exact ⟨⟨h1, by omega⟩, h3, fun r' hr1 hr2 => h4 r' hr1 hr2⟩
  · intro ws
    constructor
    · intro h r h1 h2
      cases hscan : (List.range' 1 29).findSome? (massCheckRow ws) with
      | none =>
        have := (findSome?_range'_none (massCheckRow ws) 29 1).mp hscan
        exact this r h1 (by omega)
      | some t =>
        rw [find_header_row_and_cols_mass, hscan] at h
        cases h
    · intro hall
      have hnone : (List.range' 1 29).findSome? (massCheckRow ws) = Option.none := by
        rw [findSome?_range'_none]
        intro r h1 h2
        exact hall r h1 (by omega)
      rw [find_header_row_and_cols_mass, hnone]

/-- A minimal mass-update sheet with both required headers in row 1. -/
def simpleMassSheet : Sheet :=
  ⟨[[.str "SKU Penjual".data, .str "Harga Ritel (Mata Uang Lokal)".data]]⟩

/-- Witness for C9: on a sheet with both headers in row 1, the scan accepts
row 1 and its column test succeeds there. -/
theorem claim_C9_wit :
    massCheckRow simpleMassSheet 1 = some (1, 1, 2) :=
  (claim_C9.2.2.1 simpleMassSheet (1, 1, 2) (by decide)).2.1

/-!
## Claims C1 and C10: the mass-update batch loop
-/

theorem getD_padSet (l : List PyVal) (i : Nat) (v : PyVal) (j : Nat) :
    (padSet l i v).getD j PyVal.none = if j = i then v else l.getD j PyVal.none := by
  by_cases hj : j = i
  · subst hj
    have hval : j < (l ++ List.replicate (j + 1 - l.length) PyVal.none).length := by
      simp only [List.length_append, List.length_replicate]
      omega
    simp [padSet, List.getD_eq_getElem?_getD, List.getElem?_set_self hval]
  · simp only [padSet, List.getD_eq_getElem?_getD,
      List.getElem?_set_ne (fun h => hj h.symm), if_neg hj]
    rw [List.getElem?_append]
    by_cases hjl : j < l.length
    · rw [if_pos hjl]
    · rw [if_neg hjl, List.getElem?_replicate,
        List.getElem?_eq_none (by omega : l.length ≤ j)]
      by_cases hrep : j - l.length < i + 1 - l.length
      · rw [if_pos hrep]
        rfl
      · rw [if_neg hrep]

theorem Sheet.maxRow_setCell (ws : Sheet) (r c : Nat) (v : PyVal) :
    (ws.setCell r c v).maxRow = ws.maxRow := by
  simp only [Sheet.setCell]
  split
  · rfl
  · split
    · simp [Sheet.maxRow]
    · rfl

theorem Sheet.cell_setCell (ws : Sheet) (r c : Nat) (v : PyVal)
    (hr : 1 ≤ r) (hc : 1 ≤ c) (hrow : r ≤ ws.maxRow) (r' c' : Nat) :
    (ws.setCell r c v).cell r' c' = if r' = r ∧ c' = c then v else ws.cell r' c' := by
  have hnz : ¬ (r = 0 ∨ c = 0) := by omega
  have hlt : r - 1 < ws.rows.length := by
    have := hrow
    simp only [Sheet.maxRow] at this
    omega
  rw [Sheet.setCell, if_neg hnz, if_pos hlt]
  by_cases hz : r' = 0 ∨ c' = 0
  · have hne : ¬ (r' = r ∧ c' = c) := by omega
    rw [if_neg hne]
    simp only [Sheet.cell, if_pos hz]
  · simp only [Sheet.cell, if_neg hz]
    by_cases hrr : r' = r
    · subst hrr
      rw [show (ws.rows.set (r' - 1) (padSet (ws.rows.getD (r' - 1) []) (c - 1) v)).getD
            (r' - 1) [] = padSet (ws.rows.getD (r' - 1) []) (c - 1) v from by
        simp [List.getD_eq_getElem?_getD, List.getElem?_set_self hlt]]
      rw [getD_padSet]
      by_cases hcc : c' = c
      · rw [if_pos (by omega), if_pos ⟨rfl, hcc⟩]
      · rw [if_neg (by omega), if_neg (by simp [hcc])]
    · rw [if_neg (by simp [hrr])]
      rw [show (ws.rows.set (r - 1) (padSet (ws.rows.getD (r - 1) []) (c - 1) v)).getD
            (r' - 1) [] = ws.rows.getD (r' - 1) [] from by
        simp [List.getD_eq_getElem?_getD,
          List.getElem?_set_ne (show r - 1 ≠ r' - 1 from by omega)]]

/-- The outcome of one data row, computed over the original worksheet: the
`RowChange` emitted for the row, if any. -/
def rowOutcome (cfg : MassCfg) (ws0 : Sheet) (r : Nat) : Option RowChange :=
  let sku_full := parse_number_like_id (ws0.cell r cfg.sku_col)
  if sku_full = [] then Option.none
  else
    let old_price := (parse_price_cell (ws0.cell r cfg.price_col)).getD 0
    let res := compute_new_price_for_row sku_full cfg.platform cfg.pl_map cfg.addon_map
      cfg.discount
    match res.1 with
    | Option.none => Option.none
    | some np =>
      if np = old_price then Option.none
      else some ⟨cfg.file, r, sku_full, old_price, np, res.2⟩

theorem rowOutcome_excel_row (cfg : MassCfg) (ws0 : Sheet) (r : Nat) (ch : RowChange)
    (h : rowOutcome cfg ws0 r = some ch) : ch.excel_row = r := by
  simp only [rowOutcome] at h
  split at h
  · cases h
  · split at h
    · cases h
    · split at h
      · cases h
      · cases h; rfl

theorem rowOutcome_none_iff (cfg : MassCfg) (ws0 : Sheet) (r : Nat) :
    rowOutcome cfg ws0 r = Option.none ↔
      (parse_number_like_id (ws0.cell r cfg.sku_col) = [] ∨
       (compute_new_price_for_row (parse_number_like_id (ws0.cell r cfg.sku_col))
         cfg.platform cfg.pl_map cfg.addon_map cfg.discount).1 = Option.none ∨
       (compute_new_price_for_row (parse_number_like_id (ws0.cell r cfg.sku_col))
         cfg.platform cfg.pl_map cfg.addon_map cfg.discount).1 =
         some ((parse_price_cell (ws0.cell r cfg.price_col)).getD 0)) := by
  simp only [rowOutcome]
  by_cases hsku : parse_number_like_id (ws0.cell r cfg.sku_col) = []
  · simp [hsku]
  · rw [if_neg hsku]
    cases hres : (compute_new_price_for_row (parse_number_like_id (ws0.cell r cfg.sku_col))
        cfg.platform cfg.pl_map cfg.addon_map cfg.discount).1 with
    | none => simp [hsku]
    | some np =>
      by_cases hold : np = (parse_price_cell (ws0.cell r cfg.price_col)).getD 0
      · simp [hsku, hold]
      · simp [hsku, hold]

theorem rowOutcome_some_shape (cfg : MassCfg) (ws0 : Sheet) (r : Nat) (ch : RowChange)
    (h : rowOutcome cfg ws0 r = some ch) :
    parse_number_like_id (ws0.cell r cfg.sku_col) ≠ [] ∧
    (compute_new_price_for_row (parse_number_like_id (ws0.cell r cfg.sku_col))
      cfg.platform cfg.pl_map cfg.addon_map cfg.discount).1 = some ch.new_price ∧
    ch.new_price ≠ (parse_price_cell (ws0.cell r cfg.price_col)).getD 0 := by
  simp only [rowOutcome] at h
  split at h
  · cases h
  · rename_i hsku
    split at h
    · cases h
    · rename_i np hres
      split at h
      · cases h
      · rename_i hold
        cases h
        exact ⟨hsku, hres, hold⟩

theorem massRowStep_spec (cfg : MassCfg) (ws0 : Sheet) (st : MassState) (r : Nat)
    (hpc : 1 ≤ cfg.price_col) (hr : 1 ≤ r) (hrow : r ≤ st.ws.maxRow)
    (hagree : ∀ c, st.ws.cell r c = ws0.cell r c) :
    (massRowStep cfg st r).changed = st.changed ++ (rowOutcome cfg ws0 r).toList ∧
    (massRowStep cfg st r).ws.maxRow = st.ws.maxRow ∧
    (∀ r' c', r' ≠ r → (massRowStep cfg st r).ws.cell r' c' = st.ws.cell r' c') ∧
    (∀ c', (massRowStep cfg st r).ws.cell r c' =
      match rowOutcome cfg ws0 r with
      | some ch => if c' = cfg.price_col then PyVal.int ch.new_price else st.ws.cell r c'
      | Option.none => st.ws.cell r c') := by
  have hstep : massRowStep cfg st r =
      match rowOutcome cfg ws0 r with
      | Option.none => st
      | some ch =>
        { ws := st.ws.setCell r cfg.price_col (.int ch.new_price),
          changed := st.changed ++ [ch], count := st.count + 1 } := by
    by_cases hsku : parse_number_like_id (ws0.cell r cfg.sku_col) = []
    · simp [massRowStep, rowOutcome, hagree, hsku]
    · cases hres : (compute_new_price_for_row (parse_number_like_id (ws0.cell r cfg.sku_col))
          cfg.platform cfg.pl_map cfg.addon_map cfg.discount).1 with
      | none => simp [massRowStep, rowOutcome, hagree, hsku, hres]
      | some np =>
        by_cases hold : np = (parse_price_cell (ws0.cell r cfg.price_col)).getD 0
        · simp [massRowStep, rowOutcome, hagree, hsku, hres, hold]
        · simp [massRowStep, rowOutcome, hagree, hsku, hres, hold]
  cases houtcome : rowOutcome cfg ws0 r with
  | none =>
    rw [houtcome] at hstep
    rw [hstep]
    exact ⟨by simp, rfl, fun _ _ _ => rfl, fun _ => rfl⟩
  | some ch =>
    rw [houtcome] at hstep
    rw [hstep]
    refine ⟨by simp, Sheet.maxRow_setCell _ _ _ _, ?_, ?_⟩
    · intro r' c' hne
      rw [Sheet.cell_setCell st.ws r cfg.price_col _ hr hpc hrow r' c']
      rw [if_neg (by simp [hne])]
    · intro c'
      rw [Sheet.cell_setCell st.ws r cfg.price_col _ hr hpc hrow r c']
      by_cases hcc : c' = cfg.price_col
      · rw [if_pos ⟨rfl, hcc⟩]
        simp [hcc]
      · rw [if_neg (by simp [hcc])]
        simp [hcc]

theorem massFold_spec (cfg : MassCfg) (ws0 : Sheet) (hpc : 1 ≤ cfg.price_col) :
    ∀ (L : List Nat) (st : MassState),
      L.Nodup →
      (∀ r ∈ L, 1 ≤ r ∧ r ≤ ws0.maxRow) →
      st.ws.maxRow = ws0.maxRow →
      (∀ r ∈ L, ∀ c, st.ws.cell r c = ws0.cell r c) →
      (L.foldl (massRowStep cfg) st).changed =
          st.changed ++ L.filterMap (rowOutcome cfg ws0) ∧
      (L.foldl (massRowStep cfg) st).ws.maxRow = ws0.maxRow ∧
      (∀ r c, r ∉ L → (L.foldl (massRowStep cfg) st).ws.cell r c = st.ws.cell r c) ∧
      (∀ r ∈ L, ∀ c, (L.foldl (massRowStep cfg) st).ws.cell r c =
        match rowOutcome cfg ws0 r with
        | some ch => if c = cfg.price_col then PyVal.int ch.new_price else ws0.cell r c
        | Option.none => ws0.cell r c) := by
  intro L
  induction L with
  | nil =>
    intro st _ _ hmax _
    exact ⟨by simp, hmax, fun _ _ _ => rfl, fun r hr => absurd hr (List.not_mem_nil r)⟩
  | cons a rest ih =>
    intro st hnd hbounds hmax hagree
    have hand : a ∉ rest ∧ rest.Nodup := by
      rw [List.nodup_cons] at hnd
      exact hnd
    have hab := hbounds a (List.mem_cons_self _ _)
    have hstep := massRowStep_spec cfg ws0 st a hpc hab.1
      (by rw [hmax]; exact hab.2) (hagree a (List.mem_cons_self _ _))
    have hmax' : (massRowStep cfg st a).ws.maxRow = ws0.maxRow := by
      rw [hstep.2.1, hmax]
    have hagree' : ∀ r ∈ rest, ∀ c, (massRowStep cfg st a).ws.cell r c = ws0.cell r c := by
      intro r hr c
      rw [hstep.2.2.1 r c (fun h => hand.1 (h ▸ hr))]
      exact hagree r (List.mem_cons_of_mem _ hr) c
    have hres := ih (massRowStep cfg st a) hand.2
      (fun r hr => hbounds r (List.mem_cons_of_mem _ hr)) hmax' hagree'
    have hfold : (a :: rest).foldl (massRowStep cfg) st =
        rest.foldl (massRowStep cfg) (massRowStep cfg st a) := rfl
    refine ⟨?_, ?_, ?_, ?_⟩
    · rw [hfold, hres.1, hstep.1]
      cases h' : rowOutcome cfg ws0 a <;> simp [List.filterMap_cons, h']
    · rw [hfold]
      exact hres.2.1
    · intro r c hrmem
      rw [hfold, hres.2.2.1 r c (fun h => hrmem (List.mem_cons_of_mem _ h))]
      exact hstep.2.2.1 r c (fun h => hrmem (h ▸ List.mem_cons_self _ _))
    · intro r hr c
      rcases List.mem_cons.mp hr with hra | hrr
      · subst hra
        rw [hfold, hres.2.2.1 r c hand.1, hstep.2.2.2 c]
        cases rowOutcome cfg ws0 r with
        | none => exact hagree r (List.mem_cons_self _ _) c
        | some ch =>
          by_cases hcc : c = cfg.price_col
          · simp [hcc]
          · simp [hcc, hagree r (List.mem_cons_self _ _) c]
      · rw [hfold]
        exact hres.2.2.2 r hrr c

theorem changes_count (cfg : MassCfg) (ws0 : Sheet) :
    ∀ (L : List Nat), L.Nodup → ∀ r : Nat,
      ((L.filterMap (rowOutcome cfg ws0)).filter
        (fun ch => ch.excel_row == r)).length =
        if r ∈ L ∧ (rowOutcome cfg ws0 r).isSome then 1 else 0 := by
  intro L
  induction L with
  | nil =>
    intro _ r
    simp
  | cons a rest ih =>
    intro hnd r
    have hand : a ∉ rest ∧ rest.Nodup := by
      rw [List.nodup_cons] at hnd
      exact hnd
    rw [List.filterMap_cons]
    cases ha : rowOutcome cfg ws0 a with
    | none =>
      rw [ih hand.2 r]
      by_cases hra : r = a
      · subst hra
        simp [ha, hand.1]
      · simp [List.mem_cons, hra]
    | some ch =>
      have hexr : ch.excel_row = a := rowOutcome_excel_row cfg ws0 a ch ha
      by_cases hra : r = a
      · subst hra
        rw [List.filter_cons]
        rw [show (ch.excel_row == r) = true from by simp [hexr]]
        simp only [if_true, List.length_cons]
        rw [ih hand.2 r]
        simp [hand.1, ha]
      · rw [List.filter_cons]
        rw [show (ch.excel_row == r) = false from by simp [hexr]; omega]
        simp only [Bool.false_eq_true, if_false]
        rw [ih hand.2 r]
        simp [List.mem_cons, hra]

/-- A mass-update file configuration with an empty pricelist: every
non-blank row fails resolution. -/
def massCfgF : MassCfg := ⟨"f".data, "tiktok".data, [], [], 0, 1, 2⟩

/-- A mass-update sheet with the header in row 1 and one data row whose SKU
is `XYZ` and whose current price is 100. -/
def sheetF : Sheet :=
  ⟨[[.str "SKU Penjual".data, .str "Harga Ritel (Mata Uang Lokal)".data],
    [.str "XYZ".data, .int 100]]⟩

/-- A configuration whose pricelist prices the base SKU `B` at 7,000,000. -/
def massCfgW : MassCfg :=
  ⟨"f".data, "tiktok".data, [("B".data, ⟨some 7000000, Option.none⟩)], [], 0, 1, 2⟩

/-- A sheet with one data row for SKU `B` at old price 100. -/
def sheetW : Sheet := ⟨[[.str "h".data], [.str "B".data, .int 100]]⟩

/-- Claim C1 is false on the code: a data row with a non-empty seller SKU
whose resolution fails (base SKU absent from the pricelist) produces NO
record at all — no price update and no issue entry — and the sheet is left
unchanged; failed rows are silently skipped. -/
theorem claim_C1_cex :
    (compute_new_price_for_row "XYZ".data "tiktok".data [] [] 0).1 = Option.none ∧
    parse_number_like_id (sheetF.cell 2 1) = "XYZ".data ∧
    (processMassFile massCfgF sheetF 1).changed = [] ∧
    (processMassFile massCfgF sheetF 1).ws = sheetF := by
  refine ⟨by decide, by decide, by decide, by decide⟩

/-- Claim C1 (corrected): each data row below the header yields AT MOST one
outcome, and it is always a `RowChange` (price update record), never an
issue entry: exactly one record is emitted when the row's normalized SKU is
non-empty and resolution succeeds with a price different from the parsed old
price, and no record otherwise — in particular a row on which
`compute_new_price_for_row` fails yields nothing (it is silently skipped,
together with blank-SKU rows and rows whose price is unchanged). -/
theorem claim_C1 (cfg : MassCfg) (ws0 : Sheet) (header_row r : Nat)
    (hpc : 1 ≤ cfg.price_col) (h1 : header_row < r) (h2 : r ≤ ws0.maxRow) :
    (((processMassFile cfg ws0 header_row).changed.filter
        (fun ch => ch.excel_row == r)).length =
      if (rowOutcome cfg ws0 r).isSome then 1 else 0) ∧
    ((compute_new_price_for_row (parse_number_like_id (ws0.cell r cfg.sku_col))
        cfg.platform cfg.pl_map cfg.addon_map cfg.discount).1 = Option.none →
      rowOutcome cfg ws0 r = Option.none) := by
  constructor
  · have hspec := massFold_spec cfg ws0 hpc
      (List.range' (header_row + 1) (ws0.maxRow - header_row)) ⟨ws0, [], 0⟩
      (List.nodup_range' _ _)
      (by
        intro r' hr'
        rw [List.mem_range'_1] at hr'
        omega)
      rfl (fun _ _ _ => rfl)
    rw [show processMassFile cfg ws0 header_row =
      (List.range' (header_row + 1) (ws0.maxRow - header_row)).foldl
        (massRowStep cfg) ⟨ws0, [], 0⟩ from rfl]
    rw [hspec.1]
    simp only [List.nil_append]
    rw [changes_count cfg ws0 _ (List.nodup_range' _ _) r]
    have hmem : r ∈ List.range' (header_row + 1) (ws0.maxRow - header_row) := by
      rw [List.mem_range'_1]
      omega
    simp [hmem]
  · intro hnone
    rw [rowOutcome_none_iff]
    exact Or.inr (Or.inl hnone)

/-- Witness for C1: a row that resolves to a changed price yields exactly
one change record. -/
theorem claim_C1_wit :
    ((processMassFile massCfgW sheetW 1).changed.filter
      (fun ch => ch.excel_row == 2)).length =
      if (rowOutcome massCfgW sheetW 2).isSome then 1 else 0 :=
  (claim_C1 massCfgW sheetW 1 2 (by decide) (by decide) (by decide)).1

/-- Claim C10 (confirmed): the price cell of a data row is overwritten only
when resolution returns a price different from the parsed old price — and
then with exactly that integer price — while on failure or on an unchanged
price every cell of the row is left untouched and no `RowChange` is emitted
for the row. -/
theorem claim_C10 (cfg : MassCfg) (ws0 : Sheet) (header_row r : Nat)
    (hpc : 1 ≤ cfg.price_col) (h1 : header_row < r) (h2 : r ≤ ws0.maxRow) :
    ((parse_number_like_id (ws0.cell r cfg.sku_col) = [] ∨
      (compute_new_price_for_row (parse_number_like_id (ws0.cell r cfg.sku_col))
        cfg.platform cfg.pl_map cfg.addon_map cfg.discount).1 = Option.none ∨
      (compute_new_price_for_row (parse_number_like_id (ws0.cell r cfg.sku_col))
        cfg.platform cfg.pl_map cfg.addon_map cfg.discount).1 =
        some ((parse_price_cell (ws0.cell r cfg.price_col)).getD 0)) →
      (∀ c, (processMassFile cfg ws0 header_row).ws.cell r c = ws0.cell r c) ∧
      (processMassFile cfg ws0 header_row).changed.filter
        (fun ch => ch.excel_row == r) = []) ∧
    (∀ c, (processMassFile cfg ws0 header_row).ws.cell r c ≠ ws0.cell r c →
      c = cfg.price_col ∧
      parse_number_like_id (ws0.cell r cfg.sku_col) ≠ [] ∧
      ∃ np : Int,
        (compute_new_price_for_row (parse_number_like_id (ws0.cell r cfg.sku_col))
          cfg.platform cfg.pl_map cfg.addon_map cfg.discount).1 = some np ∧
        np ≠ (parse_price_cell (ws0.cell r cfg.price_col)).getD 0 ∧
        (processMassFile cfg ws0 header_row).ws.cell r c = PyVal.int np) := by
  have hspec := massFold_spec cfg ws0 hpc
    (List.range' (header_row + 1) (ws0.maxRow - header_row)) ⟨ws0, [], 0⟩
    (List.nodup_range' _ _)
    (by
      intro r' hr'
      rw [List.mem_range'_1] at hr'
      omega)
    rfl (fun _ _ _ => rfl)
  have hmem : r ∈ List.range' (header_row + 1) (ws0.maxRow - header_row) := by
    rw [List.mem_range'_1]
    omega
  have hfoldeq : processMassFile cfg ws0 header_row =
      (List.range' (header_row + 1) (ws0.maxRow - header_row)).foldl
        (massRowStep cfg) ⟨ws0, [], 0⟩ := rfl
  have hcell := fun c => hfoldeq ▸ hspec.2.2.2 r hmem c
  constructor
  · intro hcond
    have houtcome : rowOutcome cfg ws0 r = Option.none :=
      (rowOutcome_none_iff cfg ws0 r).mpr hcond
    constructor
    · intro c
      rw [hcell c, houtcome]
    · have hlen := congrArg List.length (rfl :
        (processMassFile cfg ws0 header_row).changed.filter
          (fun ch => ch.excel_row == r) =
        (processMassFile cfg ws0 header_row).changed.filter
          (fun ch => ch.excel_row == r))
      have hcount : ((processMassFile cfg ws0 header_row).changed.filter
          (fun ch => ch.excel_row == r)).length = 0 := by
        rw [hfoldeq, hspec.1]
        simp only [List.nil_append]
        rw [changes_count cfg ws0 _ (List.nodup_range' _ _) r]
        simp [houtcome]
      exact List.length_eq_zero.mp hcount
  · intro c hne
    rw [hcell c] at hne ⊢
    cases houtcome : rowOutcome cfg ws0 r with
    | none =>
      rw [houtcome] at hne
      exact absurd rfl hne
    | some ch =>
      rw [houtcome] at hne
      have hred : (match some ch with
          | some ch => if c = cfg.price_col then PyVal.int ch.new_price else ws0.cell r c
          | (Option.none : Option RowChange) => ws0.cell r c) =
          if c = cfg.price_col then PyVal.int ch.new_price else ws0.cell r c := rfl
      rw [hred] at hne ⊢
      by_cases hcc : c = cfg.price_col
      · have hshape := rowOutcome_some_shape cfg ws0 r ch houtcome
        refine ⟨hcc, hshape.1, ch.new_price, hshape.2.1, hshape.2.2, ?_⟩
        rw [if_pos hcc]
      · rw [if_neg hcc] at hne
        exact absurd rfl hne

/-- Witness for C10: on a row whose resolution fails, every cell of the row
is untouched and no change record mentions the row. -/
theorem claim_C10_wit :
    (∀ c, (processMassFile massCfgF sheetF 1).ws.cell 2 c = sheetF.cell 2 c) ∧
    (processMassFile massCfgF sheetF 1).changed.filter
      (fun ch => ch.excel_row == 2) = [] :=
  (claim_C10 massCfgF sheetF 1 2 (by decide) (by decide) (by decide)).1
    (Or.inr (Or.inl (by decide)))

end TiktokDiskon
